import Mathlib

/-! Shallow embedding of `source/cpuinfo.c` (RPi.GPIO.64).

`get_rpi_info` fills a caller-owned `rpi_info` record from a revision code.  The C function has
two bodies selected by the preprocessor:

* with `__aarch64__` defined, the code is a packed 32-bit word read from the device tree
  (`get_rpi_info_aarch64`);
* otherwise it is a text token scanned out of `/proc/cpuinfo` (`get_rpi_info_cpuinfo`).

Conventions of the embedding.

* A C string is the list of its characters before the terminating NUL (`List Char`); a
  `const char *` that points at a string literal is a `String`.
* The function receives the caller's record and returns the `int` result together with the
  record as it stands afterwards, so "nothing was written" is "the record comes back unchanged".
* A read outside an array has no defined behaviour in C: every array read is an `Option`, and
  the whole call is `none` when one of them is outside its array.
* `uint32_t` is a `Nat` reduced modulo `2 ^ 32` at the point where it is read.
-/

namespace CpuInfo

/-! ## The record and the lookup tables -/

/-- The record type `rpi_info` declared in `cpuinfo.h`, with the six members that
`get_rpi_info` assigns. -/
structure rpi_info where
  p1_revision : Int
  ram : String
  manufacturer : String
  processor : String
  type : String
  revision : List Char
deriving DecidableEq, Repr

/-- The table `const char *piModelNames [16]`. -/
def piModelNames : List String :=
  [ "Model A",    --  0
    "Model B",    --  1
    "Model A+",   --  2
    "Model B+",   --  3
    "Pi 2",       --  4
    "Alpha",      --  5
    "CM",         --  6
    "Unknown07",  -- 07
    "Pi 3",       -- 08
    "Pi Zero",    -- 09
    "CM3",        -- 10
    "Unknown11",  -- 11
    "Pi Zero-W",  -- 12
    "Pi 3+",      -- 13
    "Unknown14",  -- 14
    "Unknown15" ] -- 15

/-- The table `const int piRevision [16]`. -/
def piRevision : List Int :=
  [ 2,  -- "Model A"     0
    2,  -- "Model B"     1
    3,  -- "Model A+"    2
    3,  -- "Model B+"    3
    3,  -- "Pi 2"        4
    3,  -- "Alpha"       5
    0,  -- "CM"          6
    3,  -- "Unknown07"  07
    3,  -- "Pi 3"       08
    3,  -- "Pi Zero"    09
    3,  -- "CM3"        10
    3,  -- "Unknown11"  11
    3,  -- "Pi Zero-W"  12
    3,  -- "Pi 3+"      13
    3,  -- "Unknown14"  14
    3 ] -- "Unknown15"  15

/-- The table `const char *piMakerNames [16]`. -/
def piMakerNames : List String :=
  [ "Sony",       --  0
    "Egoman",     --  1
    "Embest",     --  2
    "Unknown",    --  3
    "Embest",     --  4
    "Unknown05",  --  5
    "Unknown06",  --  6
    "Unknown07",  --  7
    "Unknown08",  --  8
    "Unknown09",  --  9
    "Unknown10",  -- 10
    "Unknown11",  -- 11
    "Unknown12",  -- 12
    "Unknown13",  -- 13
    "Unknown14",  -- 14
    "Unknown15" ] -- 15

/-- The table `const char *piMemorySize [8]`. -/
def piMemorySize : List String :=
  [ "256M",   --  0
    "512M",   --  1
    "1024M",  --  2
    "0M",     --  3
    "0M",     --  4
    "0M",     --  5
    "0M",     --  6
    "0M" ]    --  7

/-- The table `const char *piProcesorNames [16]`. -/
def piProcesorNames : List String :=
  [ "BCM2835",    --  0
    "BCM2836",    --  1
    "BCM2837",    --  2
    "Unknown03",  --  3
    "Unknown04",  --  4
    "Unknown05",  --  5
    "Unknown06",  --  6
    "Unknown07",  --  7
    "Unknown08",  --  8
    "Unknown09",  --  9
    "Unknown10",  -- 10
    "Unknown11",  -- 11
    "Unknown12",  -- 12
    "Unknown13",  -- 13
    "Unknown14",  -- 14
    "Unknown15" ] -- 15

/-! ## The packed path (`#ifdef __aarch64__`) -/

/-- The test `strstr(haystack, needle) != NULL`: the needle occurs somewhere in the haystack. -/
def strstr : List Char → List Char → Bool
  | [], needle => needle.isEmpty
  | c :: cs, needle => needle.isPrefixOf (c :: cs) || strstr cs needle

/-- The digits of `n` in base 16, most significant first, pushed in front of `acc`; with fuel
left at least one digit is produced. -/
def hexDigitsAux : Nat → Nat → List Char → List Char
  | 0, _, acc => acc
  | fuel + 1, n, acc =>
    let acc1 := Nat.digitChar (n % 16) :: acc
    if n / 16 = 0 then acc1 else hexDigitsAux fuel (n / 16) acc1

/-- The call `sprintf(revision, "%x", rpi_rev)` for a `uint32_t`: lower-case hexadecimal, no prefix, no
leading zeros.  Eight digits are enough for any 32-bit value. -/
def sprintf_x (rpi_rev : Nat) : List Char :=
  hexDigitsAux 8 rpi_rev []

/-- The field `bRev = (rpi_rev & (0x0F << 0)) >> 0`. -/
def bRev (rpi_rev : Nat) : Nat := (rpi_rev &&& (0x0F <<< 0)) >>> 0

/-- The field `bType = (rpi_rev & (0xFF << 4)) >> 4`. -/
def bType (rpi_rev : Nat) : Nat := (rpi_rev &&& (0xFF <<< 4)) >>> 4

/-- The field `bProc = (rpi_rev & (0x0F << 12)) >> 12`. -/
def bProc (rpi_rev : Nat) : Nat := (rpi_rev &&& (0x0F <<< 12)) >>> 12

/-- The field `bMfg = (rpi_rev & (0x0F << 16)) >> 16`. -/
def bMfg (rpi_rev : Nat) : Nat := (rpi_rev &&& (0x0F <<< 16)) >>> 16

/-- The field `bMem = (rpi_rev & (0x07 << 20)) >> 20`. -/
def bMem (rpi_rev : Nat) : Nat := (rpi_rev &&& (0x07 <<< 20)) >>> 20

/-- The three device files the function may open.  `none` is a failed `fopen`.

* `linux_revision`: the word stored in `/proc/device-tree/system/linux,revision`, already in
  host order (after the `bswap_32` on little-endian hosts);
* `model`: the text that `fread` leaves in the buffer for `/proc/device-tree/model`;
* `cpuinfo`: `/proc/cpuinfo`, as the successive buffers returned by `fgets`. -/
structure Files where
  linux_revision : Option Nat
  model : Option (List Char)
  cpuinfo : Option (List (List Char))

/-- The body of `get_rpi_info` compiled with `__aarch64__`.  The result is `none` when a table
is read outside its bounds; otherwise it is the returned `int` and the caller's record. -/
def get_rpi_info_aarch64 (fs : Files) (info : rpi_info) : Option (Int × rpi_info) :=
  let acquired : Option Nat :=
    match fs.linux_revision with
    | none =>
      -- Let's try to read the /proc/device-tree/model from aarchOS
      match fs.model with
      | none => none
      | some revision =>
        if strstr revision "Raspberry Pi 3 Model B+".toList then some 0xa020d3 else none
    | some word => some (word % 2 ^ 32)
  match acquired with
  | none => some (-1, info)
  | some rpi_rev =>
    if rpi_rev &&& (1 <<< 23) ≠ 0 then do  -- New way
      let revision := sprintf_x rpi_rev
      let p1_revision ← piRevision[bRev rpi_rev]?
      let ram ← piMemorySize[bMem rpi_rev]?
      let manufacturer ← piMakerNames[bMfg rpi_rev]?
      let processor ← piProcesorNames[bProc rpi_rev]?
      let type ← piModelNames[bType rpi_rev]?
      pure (0, { info with p1_revision := p1_revision, ram := ram, manufacturer := manufacturer,
                           processor := processor, type := type, revision := revision })
    else
      some (-1, info)

/-! ## The text path (`#else`) -/

/-- The C library `isspace` in the C locale. -/
def isspace (c : Char) : Bool :=
  c = ' ' || c = '\t' || c = '\n' || c = '\x0b' || c = '\x0c' || c = '\r'

/-- Ordinary characters of a `sscanf` format: each must equal the next input character.
The result is the input that remains. -/
def matchLiteral : List Char → List Char → Option (List Char)
  | [], input => some input
  | _ :: _, [] => none
  | l :: ls, c :: cs => if l = c then matchLiteral ls cs else none

/-- The call `sscanf(buffer, "<label>\t: %s", dst)` for a label without white space: the label is
matched literally, the tab directive skips any white space, the colon is matched literally,
the blank directive and `%s` skip any white space, and `%s` stores the longest run of
characters that are not white space.  The result is the stored string, or `none` when the
scan stops before storing anything (`dst` is then left as it was). -/
def sscanf_s (label buffer : List Char) : Option (List Char) :=
  match matchLiteral label buffer with
  | none => none
  | some afterLabel =>
    match afterLabel.dropWhile isspace with
    | ':' :: afterColon =>
      let word := (afterColon.dropWhile isspace).takeWhile (fun c => !isspace c)
      if word.isEmpty then none else some word
    | _ => none

/-- The locals that live across iterations of the `fgets` loop. -/
structure ScanState where
  found : Bool
  hardware : List Char
  revision : List Char
deriving DecidableEq, Repr

/-- The five values of `hardware` that set `found`. -/
def isKnownHardware (hardware : List Char) : Bool :=
  hardware = "BCM2708".toList ||
  hardware = "BCM2709".toList ||
  hardware = "BCM2835".toList ||
  hardware = "BCM2836".toList ||
  hardware = "BCM2837".toList

/-- The body of the `while` loop for one buffer returned by `fgets`. -/
def scanLine (st : ScanState) (buffer : List Char) : ScanState :=
  let hardware := (sscanf_s "Hardware".toList buffer).getD st.hardware
  let found := if isKnownHardware hardware then true else st.found
  let revision := (sscanf_s "Revision".toList buffer).getD st.revision
  { found := found, hardware := hardware, revision := revision }

/-- The whole `while` loop.  `hardware0` and `revision0` are whatever the automatic arrays
`hardware` and `revision` hold on entry; C leaves them uninitialised. -/
def scanLines (hardware0 revision0 : List Char) (lines : List (List Char)) : ScanState :=
  lines.foldl scanLine { found := false, hardware := hardware0, revision := revision0 }

/-- The read `revision[i]` for an `int` index: a character of the string, `none` outside it. -/
def charAt (revision : List Char) (i : Int) : Option Char :=
  if 0 ≤ i then revision[i.toNat]? else none

/-- The call `strtol((char[]){c,0}, NULL, 16)`: the value of a single hexadecimal digit, `0` for any
other character. -/
def strtol16 (c : Char) : Nat :=
  if '0' ≤ c && c ≤ '9' then c.toNat - '0'.toNat
  else if 'a' ≤ c && c ≤ 'f' then c.toNat - 'a'.toNat + 10
  else if 'A' ≤ c && c ≤ 'F' then c.toNat - 'A'.toNat + 10
  else 0

/-- The test `len >= 6 && strtol((char[]){revision[len-6],0}, NULL, 16) & 8`; the right
operand is evaluated only when the left one holds. -/
def isNewScheme (revision : List Char) : Option Bool :=
  let len : Int := revision.length
  if len ≥ 6 then do
    let c ← charAt revision (len - 6)
    pure (decide (strtol16 c &&& 8 ≠ 0))
  else
    pure false

/-- The pointer `rev`: the last four characters when there are more than four. -/
def lastFour (revision : List Char) : List Char :=
  if revision.length > 4 then revision.drop (revision.length - 4) else revision

/-- The `else` branch ("old scheme"): the four defaults and the `strcpy`, then the chain of
`strcmp`s on `rev`. -/
def decodeOldScheme (revision : List Char) (info : rpi_info) : rpi_info :=
  let info := { info with ram := "Unknown", manufacturer := "Unknown", processor := "Unknown",
                          type := "Unknown", revision := revision }
  -- get last four characters (ignore preceeding 1000 for overvolt)
  let rev := lastFour revision
  if rev = "0002".toList || rev = "0003".toList then
    { info with type := "Model B", p1_revision := 1, ram := "256M", processor := "BCM2835" }
  else if rev = "0004".toList then
    { info with type := "Model B", p1_revision := 2, ram := "256M", manufacturer := "Sony",
                processor := "BCM2835" }
  else if rev = "0005".toList then
    { info with type := "Model B", p1_revision := 2, ram := "256M", manufacturer := "Qisda",
                processor := "BCM2835" }
  else if rev = "0006".toList then
    { info with type := "Model B", p1_revision := 2, ram := "256M", manufacturer := "Egoman",
                processor := "BCM2835" }
  else if rev = "0007".toList then
    { info with type := "Model A", p1_revision := 2, ram := "256M", manufacturer := "Egoman",
                processor := "BCM2835" }
  else if rev = "0008".toList then
    { info with type := "Model A", p1_revision := 2, ram := "256M", manufacturer := "Sony",
                processor := "BCM2835" }
  else if rev = "0009".toList then
    { info with type := "Model A", p1_revision := 2, ram := "256M", manufacturer := "Qisda",
                processor := "BCM2835" }
  else if rev = "000d".toList then
    { info with type := "Model B", p1_revision := 2, ram := "512M", manufacturer := "Egoman",
                processor := "BCM2835" }
  else if rev = "000e".toList then
    { info with type := "Model B", p1_revision := 2, ram := "512M", manufacturer := "Sony",
                processor := "BCM2835" }
  else if rev = "000f".toList then
    { info with type := "Model B", p1_revision := 2, ram := "512M", manufacturer := "Qisda",
                processor := "BCM2835" }
  else if rev = "0011".toList || rev = "0014".toList then
    { info with type := "Compute Module", p1_revision := 0, ram := "512M",
                processor := "BCM2835" }
  else if rev = "0012".toList then
    { info with type := "Model A+", p1_revision := 3, ram := "256M", processor := "BCM2835" }
  else if rev = "0010".toList || rev = "0013".toList then
    { info with type := "Model B+", p1_revision := 3, ram := "512M", processor := "BCM2835" }
  else  -- don't know - assume revision 3 p1 connector
    { info with p1_revision := 3 }

/-- The statement `switch (revision[len-2])`: board type and connector revision. -/
def switchType (c : Char) (info : rpi_info) : rpi_info :=
  if c = '0' then { info with type := "Model A", p1_revision := 2 }
  else if c = '1' then { info with type := "Model B", p1_revision := 2 }
  else if c = '2' then { info with type := "Model A+", p1_revision := 3 }
  else if c = '3' then { info with type := "Model B+", p1_revision := 3 }
  else if c = '4' then { info with type := "Pi 2 Model B", p1_revision := 3 }
  else if c = '5' then { info with type := "Alpha", p1_revision := 3 }
  else if c = '6' then { info with type := "Compute", p1_revision := 0 }
  else if c = '8' then { info with type := "Pi 3 Model B", p1_revision := 3 }
  else if c = '9' then { info with type := "Zero", p1_revision := 3 }
  else { info with type := "Unknown", p1_revision := 3 }

/-- The statement `switch (revision[len-4])`: processor. -/
def switchProcessor (c : Char) (info : rpi_info) : rpi_info :=
  if c = '0' then { info with processor := "BCM2835" }
  else if c = '1' then { info with processor := "BCM2836" }
  else if c = '2' then { info with processor := "BCM2837" }
  else { info with processor := "Unknown" }

/-- The statement `switch (revision[len-5])`: manufacturer. -/
def switchManufacturer (c : Char) (info : rpi_info) : rpi_info :=
  if c = '0' then { info with manufacturer := "Sony" }
  else if c = '1' then { info with manufacturer := "Egoman" }
  else if c = '2' then { info with manufacturer := "Embest" }
  else if c = '4' then { info with manufacturer := "Embest" }
  else { info with manufacturer := "Unknown" }

/-- The statement `switch (strtol((char[]){revision[len-6],0}, NULL, 16) & 7)`: ram. -/
def switchRam (c : Char) (info : rpi_info) : rpi_info :=
  match strtol16 c &&& 7 with
  | 0 => { info with ram := "256M" }
  | 1 => { info with ram := "512M" }
  | 2 => { info with ram := "1024M" }
  | _ => { info with ram := "Unknown" }

/-- The `if` branch ("new scheme"): the `strcpy`, then the four switches on characters
counted from the end of the string. -/
def decodeNewScheme (revision : List Char) (info : rpi_info) : Option rpi_info := do
  let len : Int := revision.length
  let info := { info with revision := revision }
  let c2 ← charAt revision (len - 2)
  let info := switchType c2 info
  let c4 ← charAt revision (len - 4)
  let info := switchProcessor c4 info
  let c5 ← charAt revision (len - 5)
  let info := switchManufacturer c5 info
  let c6 ← charAt revision (len - 6)
  let info := switchRam c6 info
  pure info

/-- The body of `get_rpi_info` compiled without `__aarch64__`.  The result is `none` when a
character is read outside the revision string; otherwise it is the returned `int` and the
caller's record. -/
def get_rpi_info_cpuinfo (fs : Files) (hardware0 revision0 : List Char) (info : rpi_info) :
    Option (Int × rpi_info) :=
  match fs.cpuinfo with
  | none => some (-1, info)
  | some lines =>
    let st := scanLines hardware0 revision0 lines
    if !st.found then some (-1, info)
    else if st.revision.length = 0 then some (-1, info)
    else do
      let newScheme ← isNewScheme st.revision
      if newScheme then do
        let info ← decodeNewScheme st.revision info
        pure (0, info)
      else
        pure (0, decodeOldScheme st.revision info)

/-- The function `get_rpi_info`, with the preprocessor choice as a parameter. -/
def get_rpi_info (aarch64 : Bool) (fs : Files) (hardware0 revision0 : List Char)
    (info : rpi_info) : Option (Int × rpi_info) :=
  if aarch64 then get_rpi_info_aarch64 fs info
  else get_rpi_info_cpuinfo fs hardware0 revision0 info

/-! ## Inputs named in the statements -/

/-- The word with connector-revision code `r`, board-type code `t`, processor code `p`,
manufacturer code `m` and memory code `k`, and the new-scheme bit set; the trailing comment of
the source builds its example the same way, `pi2 = 1<<23 | 2<<20 | 1<<12 | 4<<4`. -/
def packedWord (r t p m k : Nat) : Nat :=
  (1 <<< 23) ||| (k <<< 20) ||| (m <<< 16) ||| (p <<< 12) ||| (t <<< 4) ||| r

/-- A caller's record before the call: every member blank. -/
def blankInfo : rpi_info :=
  { p1_revision := 0, ram := "", manufacturer := "", processor := "", type := "",
    revision := [] }

/-- The sixteen four-character codes compared by the old scheme, in the order the spec
lists them. -/
def legacyCodes : List (List Char) :=
  [ "0002".toList, "0003".toList, "0004".toList, "0005".toList, "0006".toList, "0007".toList,
    "0008".toList, "0009".toList, "000d".toList, "000e".toList, "000f".toList, "0010".toList,
    "0011".toList, "0012".toList, "0013".toList, "0014".toList ]

/-- The line yields one of the five hardware identifiers: the `Hardware` scan stores a
string and that string is one of the five. -/
def yieldsHardware (line : List Char) : Bool :=
  match sscanf_s "Hardware".toList line with
  | some hardware => isKnownHardware hardware
  | none => false

/-- The line carries a revision token: the `Revision` scan stores a string. -/
def yieldsRevision (line : List Char) : Bool :=
  (sscanf_s "Revision".toList line).isSome

/-- The string literals that the text path stores in `type`. -/
def textTypeNames : List String :=
  [ "Model A", "Model B", "Model A+", "Model B+", "Pi 2 Model B", "Alpha", "Compute",
    "Pi 3 Model B", "Zero", "Compute Module", "Unknown" ]

/-- The string literals that the text path stores in `processor`. -/
def textProcessorNames : List String :=
  [ "BCM2835", "BCM2836", "BCM2837", "Unknown" ]

/-- The string literals that the text path stores in `manufacturer`. -/
def textMakerNames : List String :=
  [ "Sony", "Egoman", "Embest", "Qisda", "Unknown" ]

/-- The string literals that the text path stores in `ram`. -/
def textMemorySizes : List String :=
  [ "256M", "512M", "1024M", "Unknown" ]

/-- The five decoded members of a record; the raw revision is left out. -/
def decodedFields (info : rpi_info) : String × Int × String × String × String :=
  (info.type, info.p1_revision, info.processor, info.manufacturer, info.ram)

/-- The value of one hexadecimal digit, in either case; `none` for any other character.
The value is the position of the character in the digit alphabet. -/
def hexDigitValue (c : Char) : Option Nat :=
  let lower := "0123456789abcdef".toList
  let upper := "0123456789ABCDEF".toList
  if c ∈ lower then some (lower.indexOf c)
  else if c ∈ upper then some (upper.indexOf c)
  else none

/-- Reading a string as a base-16 number: every character must be a hexadecimal digit and
there must be at least one. -/
def parseHex (s : List Char) : Option Nat :=
  if s.isEmpty then none
  else s.foldl (fun acc c =>
    match acc, hexDigitValue c with
    | some a, some d => some (a * 16 + d)
    | _, _ => none) (some 0)

/-- The positional scheme as the specification words it: what the 2nd-from-last character
stands for (board type and connector revision). -/
def positionalTypes : List (Char × String × Int) :=
  [ ('0', "Model A", 2), ('1', "Model B", 2), ('2', "Model A+", 3), ('3', "Model B+", 3),
    ('4', "Pi 2 Model B", 3), ('5', "Alpha", 3), ('6', "Compute", 0),
    ('8', "Pi 3 Model B", 3), ('9', "Zero", 3) ]

/-- The positional scheme as the specification words it: what the 4th-from-last character
stands for (processor). -/
def positionalProcessors : List (Char × String) :=
  [ ('0', "BCM2835"), ('1', "BCM2836"), ('2', "BCM2837") ]

/-- The positional scheme as the specification words it: what the 5th-from-last character
stands for (manufacturer). -/
def positionalMakers : List (Char × String) :=
  [ ('0', "Sony"), ('1', "Egoman"), ('2', "Embest"), ('4', "Embest") ]

/-- The positional scheme as the specification words it: what the low three bits of the
6th-from-last digit stand for (ram). -/
def positionalRam : List (Nat × String) :=
  [ (0, "256M"), (1, "512M"), (2, "1024M") ]

/-! ## Bit-field facts for the packed path -/

theorem shiftRight_or (a b i : Nat) : (a ||| b) >>> i = a >>> i ||| b >>> i := by
  apply Nat.eq_of_testBit_eq
  intro j
  simp

/-- A masked and shifted field of an OR is the OR of the fields. -/
theorem field_or (mask shift a b : Nat) :
    ((a ||| b) &&& mask) >>> shift = ((a &&& mask) >>> shift) ||| ((b &&& mask) >>> shift) := by
  rw [Nat.and_distrib_right, shiftRight_or]

/-- A field masked with `(2 ^ w - 1) <<< s` and shifted down by `s` is below `2 ^ w`. -/
theorem field_lt (v w s : Nat) : (v &&& ((2 ^ w - 1) <<< s)) >>> s < 2 ^ w := by
  have h1 : v &&& ((2 ^ w - 1) <<< s) ≤ (2 ^ w - 1) * 2 ^ s := by
    rw [← Nat.shiftLeft_eq]
    exact Nat.and_le_right
  have h2 : 0 < 2 ^ w := Nat.two_pow_pos w
  have h3 : 0 < 2 ^ s := Nat.two_pow_pos s
  rw [Nat.shiftRight_eq_div_pow, Nat.div_lt_iff_lt_mul h3]
  calc v &&& ((2 ^ w - 1) <<< s) ≤ (2 ^ w - 1) * 2 ^ s := h1
    _ < 2 ^ w * 2 ^ s := Nat.mul_lt_mul_of_pos_right (by omega) h3

theorem bRev_lt (v : Nat) : bRev v < 16 := field_lt v 4 0

theorem bType_lt (v : Nat) : bType v < 256 := field_lt v 8 4

theorem bProc_lt (v : Nat) : bProc v < 16 := field_lt v 4 12

theorem bMfg_lt (v : Nat) : bMfg v < 16 := field_lt v 4 16

theorem bMem_lt (v : Nat) : bMem v < 8 := field_lt v 3 20

theorem bRev_packedWord (r t p m k : Nat) (hr : r < 16) (ht : t < 16) (hp : p < 16)
    (hm : m < 16) (hk : k < 8) : bRev (packedWord r t p m k) = r := by
  have h0 : ((1 <<< 23) &&& (0x0F <<< 0)) >>> 0 = 0 := by decide
  have h1 : ∀ k, k < 8 → ((k <<< 20) &&& (0x0F <<< 0)) >>> 0 = 0 := by decide
  have h2 : ∀ m, m < 16 → ((m <<< 16) &&& (0x0F <<< 0)) >>> 0 = 0 := by decide
  have h3 : ∀ p, p < 16 → ((p <<< 12) &&& (0x0F <<< 0)) >>> 0 = 0 := by decide
  have h4 : ∀ t, t < 16 → ((t <<< 4) &&& (0x0F <<< 0)) >>> 0 = 0 := by decide
  have h5 : ∀ r, r < 16 → (r &&& (0x0F <<< 0)) >>> 0 = r := by decide
  simp only [bRev, packedWord, field_or, h0, h1 k hk, h2 m hm, h3 p hp, h4 t ht, h5 r hr,
    Nat.zero_or, Nat.or_zero]

theorem bType_packedWord (r t p m k : Nat) (hr : r < 16) (ht : t < 16) (hp : p < 16)
    (hm : m < 16) (hk : k < 8) : bType (packedWord r t p m k) = t := by
  have h0 : ((1 <<< 23) &&& (0xFF <<< 4)) >>> 4 = 0 := by decide
  have h1 : ∀ k, k < 8 → ((k <<< 20) &&& (0xFF <<< 4)) >>> 4 = 0 := by decide
  have h2 : ∀ m, m < 16 → ((m <<< 16) &&& (0xFF <<< 4)) >>> 4 = 0 := by decide
  have h3 : ∀ p, p < 16 → ((p <<< 12) &&& (0xFF <<< 4)) >>> 4 = 0 := by decide
  have h4 : ∀ t, t < 16 → ((t <<< 4) &&& (0xFF <<< 4)) >>> 4 = t := by decide
  have h5 : ∀ r, r < 16 → (r &&& (0xFF <<< 4)) >>> 4 = 0 := by decide
  simp only [bType, packedWord, field_or, h0, h1 k hk, h2 m hm, h3 p hp, h4 t ht, h5 r hr,
    Nat.zero_or, Nat.or_zero]

theorem bProc_packedWord (r t p m k : Nat) (hr : r < 16) (ht : t < 16) (hp : p < 16)
    (hm : m < 16) (hk : k < 8) : bProc (packedWord r t p m k) = p := by
  have h0 : ((1 <<< 23) &&& (0x0F <<< 12)) >>> 12 = 0 := by decide
  have h1 : ∀ k, k < 8 → ((k <<< 20) &&& (0x0F <<< 12)) >>> 12 = 0 := by decide
  have h2 : ∀ m, m < 16 → ((m <<< 16) &&& (0x0F <<< 12)) >>> 12 = 0 := by decide
  have h3 : ∀ p, p < 16 → ((p <<< 12) &&& (0x0F <<< 12)) >>> 12 = p := by decide
  have h4 : ∀ t, t < 16 → ((t <<< 4) &&& (0x0F <<< 12)) >>> 12 = 0 := by decide
  have h5 : ∀ r, r < 16 → (r &&& (0x0F <<< 12)) >>> 12 = 0 := by decide
  simp only [bProc, packedWord, field_or, h0, h1 k hk, h2 m hm, h3 p hp, h4 t ht, h5 r hr,
    Nat.zero_or, Nat.or_zero]

theorem bMfg_packedWord (r t p m k : Nat) (hr : r < 16) (ht : t < 16) (hp : p < 16)
    (hm : m < 16) (hk : k < 8) : bMfg (packedWord r t p m k) = m := by
  have h0 : ((1 <<< 23) &&& (0x0F <<< 16)) >>> 16 = 0 := by decide
  have h1 : ∀ k, k < 8 → ((k <<< 20) &&& (0x0F <<< 16)) >>> 16 = 0 := by decide
  have h2 : ∀ m, m < 16 → ((m <<< 16) &&& (0x0F <<< 16)) >>> 16 = m := by decide
  have h3 : ∀ p, p < 16 → ((p <<< 12) &&& (0x0F <<< 16)) >>> 16 = 0 := by decide
  have h4 : ∀ t, t < 16 → ((t <<< 4) &&& (0x0F <<< 16)) >>> 16 = 0 := by decide
  have h5 : ∀ r, r < 16 → (r &&& (0x0F <<< 16)) >>> 16 = 0 := by decide
  simp only [bMfg, packedWord, field_or, h0, h1 k hk, h2 m hm, h3 p hp, h4 t ht, h5 r hr,
    Nat.zero_or, Nat.or_zero]

theorem bMem_packedWord (r t p m k : Nat) (hr : r < 16) (ht : t < 16) (hp : p < 16)
    (hm : m < 16) (hk : k < 8) : bMem (packedWord r t p m k) = k := by
  have h0 : ((1 <<< 23) &&& (0x07 <<< 20)) >>> 20 = 0 := by decide
  have h1 : ∀ k, k < 8 → ((k <<< 20) &&& (0x07 <<< 20)) >>> 20 = k := by decide
  have h2 : ∀ m, m < 16 → ((m <<< 16) &&& (0x07 <<< 20)) >>> 20 = 0 := by decide
  have h3 : ∀ p, p < 16 → ((p <<< 12) &&& (0x07 <<< 20)) >>> 20 = 0 := by decide
  have h4 : ∀ t, t < 16 → ((t <<< 4) &&& (0x07 <<< 20)) >>> 20 = 0 := by decide
  have h5 : ∀ r, r < 16 → (r &&& (0x07 <<< 20)) >>> 20 = 0 := by decide
  simp only [bMem, packedWord, field_or, h0, h1 k hk, h2 m hm, h3 p hp, h4 t ht, h5 r hr,
    Nat.zero_or, Nat.or_zero]

/-- The new-scheme bit of a packed word is set. -/
theorem packedWord_bit23 (r t p m k : Nat) (hr : r < 16) (ht : t < 16) (hp : p < 16)
    (hm : m < 16) (hk : k < 8) : packedWord r t p m k &&& (1 <<< 23) = 1 <<< 23 := by
  have h1 : ∀ k, k < 8 → (k <<< 20) &&& (1 <<< 23) = 0 := by decide
  have h2 : ∀ m, m < 16 → (m <<< 16) &&& (1 <<< 23) = 0 := by decide
  have h3 : ∀ p, p < 16 → (p <<< 12) &&& (1 <<< 23) = 0 := by decide
  have h4 : ∀ t, t < 16 → (t <<< 4) &&& (1 <<< 23) = 0 := by decide
  have h5 : ∀ r, r < 16 → r &&& (1 <<< 23) = 0 := by decide
  simp only [packedWord, Nat.and_distrib_right, h1 k hk, h2 m hm, h3 p hp, h4 t ht, h5 r hr,
    Nat.or_zero, Nat.and_self]

/-- A packed word fits in 32 bits. -/
theorem packedWord_lt (r t p m k : Nat) (hr : r < 16) (ht : t < 16) (hp : p < 16)
    (hm : m < 16) (hk : k < 8) : packedWord r t p m k < 2 ^ 32 := by
  have h1 : ∀ k, k < 8 → k <<< 20 < 2 ^ 32 := by decide
  have h2 : ∀ m, m < 16 → m <<< 16 < 2 ^ 32 := by decide
  have h3 : ∀ p, p < 16 → p <<< 12 < 2 ^ 32 := by decide
  have h4 : ∀ t, t < 16 → t <<< 4 < 2 ^ 32 := by decide
  have h5 : r < 2 ^ 32 := by omega
  unfold packedWord
  exact Nat.or_lt_two_pow (Nat.or_lt_two_pow (Nat.or_lt_two_pow (Nat.or_lt_two_pow
    (Nat.or_lt_two_pow (by decide) (h1 k hk)) (h2 m hm)) (h3 p hp)) (h4 t ht)) h5

/-- Unfolding of the packed path once the word is known and its new-scheme bit is set. -/
theorem get_rpi_info_aarch64_new (word : Nat) (model : Option (List Char))
    (cpuinfo : Option (List (List Char))) (info : rpi_info)
    (hbit : word % 2 ^ 32 &&& (1 <<< 23) ≠ 0) :
    get_rpi_info_aarch64 ⟨some word, model, cpuinfo⟩ info =
      (do
        let p1_revision ← piRevision[bRev (word % 2 ^ 32)]?
        let ram ← piMemorySize[bMem (word % 2 ^ 32)]?
        let manufacturer ← piMakerNames[bMfg (word % 2 ^ 32)]?
        let processor ← piProcesorNames[bProc (word % 2 ^ 32)]?
        let type ← piModelNames[bType (word % 2 ^ 32)]?
        pure (0, { info with p1_revision := p1_revision, ram := ram,
                             manufacturer := manufacturer, processor := processor,
                             type := type, revision := sprintf_x (word % 2 ^ 32) })) := by
  simp only [get_rpi_info_aarch64, hbit, ne_eq, not_false_eq_true, if_true]

/-- Unfolding of the packed path once the word is known and its new-scheme bit is clear. -/
theorem get_rpi_info_aarch64_old (word : Nat) (model : Option (List Char))
    (cpuinfo : Option (List (List Char))) (info : rpi_info)
    (hbit : word % 2 ^ 32 &&& (1 <<< 23) = 0) :
    get_rpi_info_aarch64 ⟨some word, model, cpuinfo⟩ info = some (-1, info) := by
  simp only [get_rpi_info_aarch64, hbit, ne_eq, not_true_eq_false, if_false]

/-- A read inside a table yields an entry. -/
theorem lookup_some {α : Type} (l : List α) (i : Nat) (h : i < l.length) :
    ∃ x, l[i]? = some x :=
  ⟨l[i], List.getElem?_eq_getElem h⟩

/-- Claim C1. For every connector-revision code `r < 16`, board-type code `t < 16`, processor
code `p < 16`, manufacturer code `m < 16` and memory code `k < 8`, the packed path applied to
`(1<<23) | (k<<20) | (m<<16) | (p<<12) | (t<<4) | r` returns `0`, every table read is inside
its table, and the record holds `piRevision[r]`, `piModelNames[t]`, `piProcesorNames[p]`,
`piMakerNames[m]` and `piMemorySize[k]`.  Each member is therefore a function of its own code
alone: two such words that share a code decode to the same value of the matching member,
whatever the other four codes are. -/
theorem packed_decode_all_fields (r t p m k : Nat) (hr : r < 16) (ht : t < 16) (hp : p < 16)
    (hm : m < 16) (hk : k < 8) (model : Option (List Char))
    (cpuinfo : Option (List (List Char))) (info : rpi_info) :
    (∃ rec : rpi_info,
      get_rpi_info_aarch64 ⟨some (packedWord r t p m k), model, cpuinfo⟩ info = some (0, rec) ∧
      piRevision[r]? = some rec.p1_revision ∧
      piModelNames[t]? = some rec.type ∧
      piProcesorNames[p]? = some rec.processor ∧
      piMakerNames[m]? = some rec.manufacturer ∧
      piMemorySize[k]? = some rec.ram) ∧
    (∀ r2 t2 p2 m2 k2 : Nat, r2 < 16 → t2 < 16 → p2 < 16 → m2 < 16 → k2 < 8 →
      ∀ rec rec2 : rpi_info,
      get_rpi_info_aarch64 ⟨some (packedWord r t p m k), model, cpuinfo⟩ info = some (0, rec) →
      get_rpi_info_aarch64 ⟨some (packedWord r2 t2 p2 m2 k2), model, cpuinfo⟩ info
        = some (0, rec2) →
      (r = r2 → rec.p1_revision = rec2.p1_revision) ∧
      (t = t2 → rec.type = rec2.type) ∧
      (p = p2 → rec.processor = rec2.processor) ∧
      (m = m2 → rec.manufacturer = rec2.manufacturer) ∧
      (k = k2 → rec.ram = rec2.ram)) := by
  have key : ∀ r t p m k : Nat, r < 16 → t < 16 → p < 16 → m < 16 → k < 8 →
      ∃ rec : rpi_info,
        get_rpi_info_aarch64 ⟨some (packedWord r t p m k), model, cpuinfo⟩ info
          = some (0, rec) ∧
        piRevision[r]? = some rec.p1_revision ∧
        piModelNames[t]? = some rec.type ∧
        piProcesorNames[p]? = some rec.processor ∧
        piMakerNames[m]? = some rec.manufacturer ∧
        piMemorySize[k]? = some rec.ram := by
    intro r t p m k hr ht hp hm hk
    have hmod : packedWord r t p m k % 2 ^ 32 = packedWord r t p m k :=
      Nat.mod_eq_of_lt (packedWord_lt r t p m k hr ht hp hm hk)
    have hbit : packedWord r t p m k % 2 ^ 32 &&& (1 <<< 23) ≠ 0 := by
      rw [hmod, packedWord_bit23 r t p m k hr ht hp hm hk]
      decide
    rw [get_rpi_info_aarch64_new _ _ _ _ hbit, hmod, bRev_packedWord r t p m k hr ht hp hm hk,
      bType_packedWord r t p m k hr ht hp hm hk, bProc_packedWord r t p m k hr ht hp hm hk,
      bMfg_packedWord r t p m k hr ht hp hm hk, bMem_packedWord r t p m k hr ht hp hm hk]
    obtain ⟨x1, e1⟩ := lookup_some piRevision r (by simpa [piRevision] using hr)
    obtain ⟨x2, e2⟩ := lookup_some piMemorySize k (by simpa [piMemorySize] using hk)
    obtain ⟨x3, e3⟩ := lookup_some piMakerNames m (by simpa [piMakerNames] using hm)
    obtain ⟨x4, e4⟩ := lookup_some piProcesorNames p (by simpa [piProcesorNames] using hp)
    obtain ⟨x5, e5⟩ := lookup_some piModelNames t (by simpa [piModelNames] using ht)
    rw [e1, e2, e3, e4, e5]
    exact ⟨_, rfl, rfl, rfl, rfl, rfl, rfl⟩
  refine ⟨key r t p m k hr ht hp hm hk, ?_⟩
  intro r2 t2 p2 m2 k2 hr2 ht2 hp2 hm2 hk2 rec rec2 h1 h2
  obtain ⟨a, ha, a1, a2, a3, a4, a5⟩ := key r t p m k hr ht hp hm hk
  obtain ⟨b, hb, b1, b2, b3, b4, b5⟩ := key r2 t2 p2 m2 k2 hr2 ht2 hp2 hm2 hk2
  rw [ha] at h1
  rw [hb] at h2
  have ea : a = rec := by injection h1 with h1; injection h1
  have eb : b = rec2 := by injection h2 with h2; injection h2
  subst ea eb
  refine ⟨?_, ?_, ?_, ?_, ?_⟩
  · intro e; subst e; rw [a1] at b1; exact Option.some.inj b1
  · intro e; subst e; rw [a2] at b2; exact Option.some.inj b2
  · intro e; subst e; rw [a3] at b3; exact Option.some.inj b3
  · intro e; subst e; rw [a4] at b4; exact Option.some.inj b4
  · intro e; subst e; rw [a5] at b5; exact Option.some.inj b5

/-- Witness for C1 at the codes of `0xa020d3`. -/
theorem packed_decode_all_fields_witness :
    (3 < 16 ∧ 13 < 16 ∧ 2 < 16 ∧ 0 < 16 ∧ 2 < 8) ∧ packedWord 3 13 2 0 2 = 0xa020d3 ∧
    ∃ rec : rpi_info,
      get_rpi_info_aarch64 ⟨some (packedWord 3 13 2 0 2), none, none⟩ blankInfo
        = some (0, rec) ∧
      piRevision[3]? = some rec.p1_revision ∧
      piModelNames[13]? = some rec.type ∧
      piProcesorNames[2]? = some rec.processor ∧
      piMakerNames[0]? = some rec.manufacturer ∧
      piMemorySize[2]? = some rec.ram :=
  ⟨by decide, by decide,
    (packed_decode_all_fields 3 13 2 0 2 (by decide) (by decide) (by decide) (by decide)
      (by decide) none none blankInfo).1⟩

/-- Claim C2, as stated, fails: the packed path applied to `0xa01040` does not produce a
record with board type "Pi 2", processor "BCM2836", manufacturer "Sony", ram "512M" and
connector revision 3.  The memory code of `0xa01040` is 2, so ram is "1024M". -/
theorem packed_reference_case_not_512M :
    ¬ ∃ rec : rpi_info,
      get_rpi_info_aarch64 ⟨some 0xa01040, none, none⟩ blankInfo = some (0, rec) ∧
      rec.type = "Pi 2" ∧ rec.processor = "BCM2836" ∧ rec.manufacturer = "Sony" ∧
      rec.ram = "512M" ∧ rec.p1_revision = 3 := by
  have h : get_rpi_info_aarch64 ⟨some 0xa01040, none, none⟩ blankInfo
      = some (0, { p1_revision := 2, ram := "1024M", manufacturer := "Sony",
                   processor := "BCM2836", type := "Pi 2", revision := "a01040".toList }) := by
    decide
  rintro ⟨rec, hrec, -, -, -, hram, -⟩
  rw [h] at hrec
  have e : rec = { p1_revision := 2, ram := "1024M", manufacturer := "Sony",
                   processor := "BCM2836", type := "Pi 2", revision := "a01040".toList } := by
    injection hrec with hrec
    injection hrec with _ hrec
    exact hrec.symm
  rw [e] at hram
  exact absurd hram (by decide)

/-- Claim C2, amended: the packed path applied to `0xa01040` returns `0` with board type
"Pi 2", processor "BCM2836", manufacturer "Sony", ram "1024M" and raw revision "a01040",
whatever the other two files and the caller's record hold. -/
theorem packed_reference_case (model : Option (List Char))
    (cpuinfo : Option (List (List Char))) (info : rpi_info) :
    ∃ rec : rpi_info,
      get_rpi_info_aarch64 ⟨some 0xa01040, model, cpuinfo⟩ info = some (0, rec) ∧
      rec.type = "Pi 2" ∧ rec.processor = "BCM2836" ∧ rec.manufacturer = "Sony" ∧
      rec.ram = "1024M" ∧ rec.revision = "a01040".toList := by
  have hbit : 0xa01040 % 2 ^ 32 &&& (1 <<< 23) ≠ 0 := by decide
  rw [get_rpi_info_aarch64_new _ _ _ _ hbit]
  exact ⟨_, rfl, by decide, by decide, by decide, by decide, by decide⟩

/-- Claim C3 fails on the code at `0xa03111` (the revision word of a Pi 4 Model B): bit 23 is
set, the extracted board-type code is 17, the table `piModelNames` has 16 entries, and the call
reads outside the table.  The other four codes are inside their tables for every word. -/
theorem packed_type_index_out_of_bounds (model : Option (List Char))
    (cpuinfo : Option (List (List Char))) (info : rpi_info) :
    (0xa03111 &&& (1 <<< 23) ≠ 0 ∧ bType 0xa03111 = 17 ∧ piModelNames.length = 16 ∧
      piModelNames[bType 0xa03111]? = none ∧
      get_rpi_info_aarch64 ⟨some 0xa03111, model, cpuinfo⟩ info = none) ∧
    (∀ v : Nat, bRev v < piRevision.length ∧ bProc v < piProcesorNames.length ∧
      bMfg v < piMakerNames.length ∧ bMem v < piMemorySize.length) := by
  refine ⟨⟨by decide, by decide, by decide, by decide, ?_⟩, ?_⟩
  · have hbit : 0xa03111 % 2 ^ 32 &&& (1 <<< 23) ≠ 0 := by decide
    rw [get_rpi_info_aarch64_new _ _ _ _ hbit]
    rfl
  · intro v
    exact ⟨bRev_lt v, bProc_lt v, bMfg_lt v, bMem_lt v⟩

/-- Claim C9, as stated, fails: the word `0x00000002` is read successfully, its bit 23 is
clear, and the packed path does not return a record for it. -/
theorem packed_old_word_rejected :
    ¬ ∃ rec : rpi_info,
      get_rpi_info_aarch64 ⟨some 0x00000002, none, none⟩ blankInfo = some (0, rec) := by
  have h : get_rpi_info_aarch64 ⟨some 0x00000002, none, none⟩ blankInfo
      = some (-1, blankInfo) := by decide
  rintro ⟨rec, hrec⟩
  rw [h] at hrec
  injection hrec with hrec
  injection hrec with hcode _
  exact absurd hcode (by decide)

/-- The test `strstr` finds the needle exactly when the needle is an infix of the text. -/
theorem strstr_iff_contains (needle : List Char) :
    ∀ haystack : List Char, strstr haystack needle = true ↔ needle <:+: haystack
  | [] => by
    simp [strstr, List.isEmpty_iff]
  | c :: cs => by
    rw [strstr, Bool.or_eq_true, List.isPrefixOf_iff_prefix, strstr_iff_contains needle cs,
      List.infix_cons_iff]

/-- Claim C10: when the binary attribute cannot be opened and the model text contains
"Raspberry Pi 3 Model B+", the call returns `0` with the record that the word `0xa020d3`
decodes to, namely type "Pi 3+", processor "BCM2837", manufacturer "Sony", ram "1024M",
connector revision 3 and raw revision "a020d3"; when the model text does not contain that
string the call returns `-1` and the record is unchanged. -/
theorem model_string_fallback (text : List Char) (cpuinfo : Option (List (List Char)))
    (info : rpi_info) :
    ("Raspberry Pi 3 Model B+".toList <:+: text →
      get_rpi_info_aarch64 ⟨none, some text, cpuinfo⟩ info
        = get_rpi_info_aarch64 ⟨some 0xa020d3, some text, cpuinfo⟩ info ∧
      get_rpi_info_aarch64 ⟨none, some text, cpuinfo⟩ info
        = some (0, { p1_revision := 3, ram := "1024M", manufacturer := "Sony",
                     processor := "BCM2837", type := "Pi 3+",
                     revision := "a020d3".toList })) ∧
    (¬ "Raspberry Pi 3 Model B+".toList <:+: text →
      get_rpi_info_aarch64 ⟨none, some text, cpuinfo⟩ info = some (-1, info)) := by
  constructor
  · intro h
    have hs : strstr text "Raspberry Pi 3 Model B+".toList = true :=
      (strstr_iff_contains _ text).2 h
    have e : get_rpi_info_aarch64 ⟨none, some text, cpuinfo⟩ info
        = get_rpi_info_aarch64 ⟨some 0xa020d3, some text, cpuinfo⟩ info := by
      simp only [get_rpi_info_aarch64, hs, if_true]
      rfl
    refine ⟨e, ?_⟩
    rw [e]
    have hbit : 0xa020d3 % 2 ^ 32 &&& (1 <<< 23) ≠ 0 := by decide
    rw [get_rpi_info_aarch64_new _ _ _ _ hbit]
    rfl
  · intro h
    have hs : strstr text "Raspberry Pi 3 Model B+".toList = false := by
      rw [← Bool.not_eq_true, strstr_iff_contains]
      exact h
    simp only [get_rpi_info_aarch64, hs, Bool.false_eq_true, if_false]

/-- Witness for C10: one model text that contains the string and one that does not. -/
theorem model_string_fallback_witness :
    ("Raspberry Pi 3 Model B+".toList <:+: "Raspberry Pi 3 Model B+ Rev 1.3".toList ∧
      get_rpi_info_aarch64 ⟨none, some "Raspberry Pi 3 Model B+ Rev 1.3".toList, none⟩ blankInfo
        = some (0, { p1_revision := 3, ram := "1024M", manufacturer := "Sony",
                     processor := "BCM2837", type := "Pi 3+",
                     revision := "a020d3".toList })) ∧
    (¬ "Raspberry Pi 3 Model B+".toList <:+: "Raspberry Pi 4 Model B Rev 1.1".toList ∧
      get_rpi_info_aarch64 ⟨none, some "Raspberry Pi 4 Model B Rev 1.1".toList, none⟩ blankInfo
        = some (-1, blankInfo)) :=
  ⟨⟨by decide,
      ((model_string_fallback "Raspberry Pi 3 Model B+ Rev 1.3".toList none blankInfo).1
        (by decide)).2⟩,
    ⟨by decide,
      (model_string_fallback "Raspberry Pi 4 Model B Rev 1.1".toList none blankInfo).2
        (by decide)⟩⟩

/-! ## Facts for the text path -/

/-- A read at an index inside the string yields a character. -/
theorem charAt_some (revision : List Char) (i : Int) (h0 : 0 ≤ i) (h1 : i < revision.length) :
    ∃ c, charAt revision i = some c := by
  unfold charAt
  rw [if_pos h0]
  exact lookup_some revision i.toNat (by omega)

/-- The scheme test reads inside the string, whatever the string. -/
theorem isNewScheme_some (revision : List Char) : ∃ b, isNewScheme revision = some b := by
  unfold isNewScheme
  by_cases h : (revision.length : Int) ≥ 6
  · obtain ⟨c, hc⟩ := charAt_some revision (revision.length - 6) (by omega) (by omega)
    simp only [h, if_true, hc]
    exact ⟨_, rfl⟩
  · simp only [h, if_false]
    exact ⟨_, rfl⟩

/-- The new scheme is selected only for strings of at least six characters. -/
theorem isNewScheme_true_length (revision : List Char) (h : isNewScheme revision = some true) :
    6 ≤ revision.length := by
  unfold isNewScheme at h
  by_cases h6 : (revision.length : Int) ≥ 6
  · omega
  · simp only [h6, if_false] at h
    cases h

theorem switchType_revision (c : Char) (info : rpi_info) :
    (switchType c info).revision = info.revision := by
  unfold switchType
  repeat' split
  all_goals rfl

theorem switchProcessor_revision (c : Char) (info : rpi_info) :
    (switchProcessor c info).revision = info.revision := by
  unfold switchProcessor
  repeat' split
  all_goals rfl

theorem switchManufacturer_revision (c : Char) (info : rpi_info) :
    (switchManufacturer c info).revision = info.revision := by
  unfold switchManufacturer
  repeat' split
  all_goals rfl

theorem switchRam_revision (c : Char) (info : rpi_info) :
    (switchRam c info).revision = info.revision := by
  unfold switchRam
  split <;> rfl

/-- The new-scheme decoder reads inside a string of at least six characters and stores the
string as raw revision. -/
theorem decodeNewScheme_some (revision : List Char) (info : rpi_info)
    (h : 6 ≤ revision.length) :
    ∃ rec, decodeNewScheme revision info = some rec ∧ rec.revision = revision := by
  obtain ⟨c2, h2⟩ := charAt_some revision (revision.length - 2) (by omega) (by omega)
  obtain ⟨c4, h4⟩ := charAt_some revision (revision.length - 4) (by omega) (by omega)
  obtain ⟨c5, h5⟩ := charAt_some revision (revision.length - 5) (by omega) (by omega)
  obtain ⟨c6, h6⟩ := charAt_some revision (revision.length - 6) (by omega) (by omega)
  unfold decodeNewScheme
  simp only [h2, h4, h5, h6]
  refine ⟨_, rfl, ?_⟩
  rw [switchRam_revision, switchManufacturer_revision, switchProcessor_revision,
    switchType_revision]

/-- A string stored by `%s` is never empty. -/
theorem sscanf_s_ne_nil (label buffer word : List Char)
    (h : sscanf_s label buffer = some word) : word ≠ [] := by
  unfold sscanf_s at h
  split at h
  · cases h
  · split at h
    · simp only at h
      split at h
      · cases h
      · rename_i hne
        injection h with h
        subst h
        intro hnil
        apply hne
        rw [hnil]
        rfl
    · cases h

theorem scanLine_hardware (st : ScanState) (l : List Char) :
    (scanLine st l).hardware = (sscanf_s "Hardware".toList l).getD st.hardware := rfl

theorem scanLine_found (st : ScanState) (l : List Char) :
    (scanLine st l).found
      = if isKnownHardware (scanLine st l).hardware then true else st.found := rfl

theorem scanLine_revision (st : ScanState) (l : List Char) :
    (scanLine st l).revision = (sscanf_s "Revision".toList l).getD st.revision := rfl

/-- One iteration sets `found` exactly when it was set or the line yields a known identifier,
provided that an unset `found` goes with an unknown `hardware` buffer. -/
theorem scanLine_found_iff (st : ScanState) (l : List Char)
    (hinv : st.found = false → isKnownHardware st.hardware = false) :
    (scanLine st l).found = true ↔ (st.found = true ∨ yieldsHardware l = true) := by
  rw [scanLine_found, scanLine_hardware]
  unfold yieldsHardware
  cases sscanf_s "Hardware".toList l with
  | none =>
    cases hf : st.found with
    | true => simp
    | false => simp [hinv hf]
  | some hw =>
    by_cases hk : isKnownHardware hw = true
    · simp [hk]
    · simp [hk]

/-- After one iteration an unset `found` goes with an unknown `hardware` buffer. -/
theorem scanLine_inv (st : ScanState) (l : List Char) :
    (scanLine st l).found = false → isKnownHardware (scanLine st l).hardware = false := by
  rw [scanLine_found]
  intro h
  by_cases hk : isKnownHardware (scanLine st l).hardware = true
  · rw [if_pos hk] at h
    cases h
  · simpa using hk

/-- Across the loop, `found` ends up set exactly when it was set before or some line yields a
known identifier, provided that an unset `found` goes with an unknown `hardware` buffer. -/
theorem foldl_scanLine_found (lines : List (List Char)) :
    ∀ st : ScanState, (st.found = false → isKnownHardware st.hardware = false) →
      ((lines.foldl scanLine st).found = true ↔
        (st.found = true ∨ ∃ l ∈ lines, yieldsHardware l = true)) := by
  induction lines with
  | nil =>
    intro st _
    simp
  | cons l ls ih =>
    intro st hinv
    rw [List.foldl_cons, ih (scanLine st l) (scanLine_inv st l), scanLine_found_iff st l hinv]
    simp only [List.mem_cons, exists_eq_or_imp]
    tauto

/-- Across the loop, the `revision` buffer ends up empty exactly when it was empty before and
no line carries a revision token. -/
theorem foldl_scanLine_revision_nil (lines : List (List Char)) :
    ∀ st : ScanState,
      ((lines.foldl scanLine st).revision = [] ↔
        (st.revision = [] ∧ ∀ l ∈ lines, yieldsRevision l = false)) := by
  induction lines with
  | nil =>
    intro st
    simp
  | cons l ls ih =>
    intro st
    rw [List.foldl_cons, ih (scanLine st l), scanLine_revision]
    have hstep : (sscanf_s "Revision".toList l).getD st.revision = [] ↔
        (st.revision = [] ∧ yieldsRevision l = false) := by
      unfold yieldsRevision
      cases hs : sscanf_s "Revision".toList l with
      | none => simp
      | some tok =>
        have := sscanf_s_ne_nil _ _ _ hs
        simp [this]
    rw [hstep]
    simp only [List.mem_cons, forall_eq_or_imp]
    tauto

/-- The loop from the initial state: `found` in terms of the lines. -/
theorem scanLines_found_iff (hardware0 revision0 : List Char) (lines : List (List Char))
    (h0 : isKnownHardware hardware0 = false) :
    (scanLines hardware0 revision0 lines).found = true ↔
      ∃ l ∈ lines, yieldsHardware l = true := by
  unfold scanLines
  rw [foldl_scanLine_found lines _ (fun _ => h0)]
  simp

/-- The loop from an empty `revision` buffer: the token is empty exactly when no line carries
one. -/
theorem scanLines_revision_nil_iff (hardware0 : List Char) (lines : List (List Char)) :
    (scanLines hardware0 [] lines).revision = [] ↔ ∀ l ∈ lines, yieldsRevision l = false := by
  unfold scanLines
  rw [foldl_scanLine_revision_nil lines _]
  simp

/-- Unfolding of the text path once the loop has set `found` and captured a token. -/
theorem get_rpi_info_cpuinfo_decode (linux_revision : Option Nat) (model : Option (List Char))
    (lines : List (List Char)) (hardware0 revision0 : List Char) (info : rpi_info)
    (hfound : (scanLines hardware0 revision0 lines).found = true)
    (htoken : (scanLines hardware0 revision0 lines).revision ≠ []) :
    get_rpi_info_cpuinfo ⟨linux_revision, model, some lines⟩ hardware0 revision0 info =
      (do
        let newScheme ← isNewScheme (scanLines hardware0 revision0 lines).revision
        if newScheme then do
          let info ← decodeNewScheme (scanLines hardware0 revision0 lines).revision info
          pure (0, info)
        else
          pure (0, decodeOldScheme (scanLines hardware0 revision0 lines).revision info)) := by
  have hlen : (scanLines hardware0 revision0 lines).revision.length ≠ 0 := by
    intro h
    exact htoken (List.length_eq_zero.mp h)
  simp only [get_rpi_info_cpuinfo, hfound, hlen, Bool.not_true, Bool.false_eq_true, if_false]

/-- The text path returns `-1` and leaves the record alone when `found` is not set. -/
theorem get_rpi_info_cpuinfo_not_found (linux_revision : Option Nat)
    (model : Option (List Char)) (lines : List (List Char)) (hardware0 revision0 : List Char)
    (info : rpi_info) (hfound : (scanLines hardware0 revision0 lines).found = false) :
    get_rpi_info_cpuinfo ⟨linux_revision, model, some lines⟩ hardware0 revision0 info
      = some (-1, info) := by
  simp only [get_rpi_info_cpuinfo, hfound, Bool.not_false, if_true]

/-- The text path returns `-1` and leaves the record alone when the token is empty. -/
theorem get_rpi_info_cpuinfo_empty (linux_revision : Option Nat)
    (model : Option (List Char)) (lines : List (List Char)) (hardware0 revision0 : List Char)
    (info : rpi_info) (htoken : (scanLines hardware0 revision0 lines).revision = []) :
    get_rpi_info_cpuinfo ⟨linux_revision, model, some lines⟩ hardware0 revision0 info
      = some (-1, info) := by
  simp only [get_rpi_info_cpuinfo, htoken, List.length_nil, if_true]
  split <;> rfl

/-- Claim C4: on the text path, when the loop has recognised the hardware and the captured
token is "0002" or "0003", the call returns `0` with board type "Model B", connector
revision 1, ram "256M", processor "BCM2835", manufacturer "Unknown" and the token as raw
revision. -/
theorem legacy_0002_0003 (linux_revision : Option Nat) (model : Option (List Char))
    (lines : List (List Char)) (hardware0 revision0 : List Char) (info : rpi_info)
    (hfound : (scanLines hardware0 revision0 lines).found = true)
    (htoken : (scanLines hardware0 revision0 lines).revision = "0002".toList ∨
      (scanLines hardware0 revision0 lines).revision = "0003".toList) :
    get_rpi_info_cpuinfo ⟨linux_revision, model, some lines⟩ hardware0 revision0 info
      = some (0, { p1_revision := 1, ram := "256M", manufacturer := "Unknown",
                   processor := "BCM2835", type := "Model B",
                   revision := (scanLines hardware0 revision0 lines).revision }) := by
  have hne : (scanLines hardware0 revision0 lines).revision ≠ [] := by
    rcases htoken with h | h <;> rw [h] <;> decide
  rw [get_rpi_info_cpuinfo_decode _ _ _ _ _ _ hfound hne]
  rcases htoken with h | h <;> rw [h] <;> rfl

/-- Witness for C4: a `/proc/cpuinfo` of an original Model B, and one with token "0003". -/
theorem legacy_0002_0003_witness :
    get_rpi_info_cpuinfo
        ⟨none, none, some ["processor\t: 0\n".toList, "Hardware\t: BCM2708\n".toList,
          "Revision\t: 0002\n".toList, "Serial\t\t: 000000001234abcd\n".toList]⟩ [] [] blankInfo
      = some (0, { p1_revision := 1, ram := "256M", manufacturer := "Unknown",
                   processor := "BCM2835", type := "Model B", revision := "0002".toList }) ∧
    get_rpi_info_cpuinfo
        ⟨none, none, some ["Hardware\t: BCM2835\n".toList, "Revision\t: 0003\n".toList]⟩
        [] [] blankInfo
      = some (0, { p1_revision := 1, ram := "256M", manufacturer := "Unknown",
                   processor := "BCM2835", type := "Model B", revision := "0003".toList }) :=
  ⟨legacy_0002_0003 none none _ [] [] blankInfo (by decide) (Or.inl (by decide)),
   legacy_0002_0003 none none _ [] [] blankInfo (by decide) (Or.inr (by decide))⟩

/-- Claim C5: on the text path, when the loop has recognised the hardware and the captured
token is "000d", the call returns `0` with board type "Model B", connector revision 2, ram
"512M", manufacturer "Egoman", processor "BCM2835" and the token as raw revision. -/
theorem legacy_000d (linux_revision : Option Nat) (model : Option (List Char))
    (lines : List (List Char)) (hardware0 revision0 : List Char) (info : rpi_info)
    (hfound : (scanLines hardware0 revision0 lines).found = true)
    (htoken : (scanLines hardware0 revision0 lines).revision = "000d".toList) :
    get_rpi_info_cpuinfo ⟨linux_revision, model, some lines⟩ hardware0 revision0 info
      = some (0, { p1_revision := 2, ram := "512M", manufacturer := "Egoman",
                   processor := "BCM2835", type := "Model B", revision := "000d".toList }) := by
  have hne : (scanLines hardware0 revision0 lines).revision ≠ [] := by
    rw [htoken]
    decide
  rw [get_rpi_info_cpuinfo_decode _ _ _ _ _ _ hfound hne, htoken]
  rfl

/-- Witness for C5: a `/proc/cpuinfo` with token "000d". -/
theorem legacy_000d_witness :
    get_rpi_info_cpuinfo
        ⟨none, none, some ["processor\t: 0\n".toList, "Hardware\t: BCM2708\n".toList,
          "Revision\t: 000d\n".toList]⟩ [] [] blankInfo
      = some (0, { p1_revision := 2, ram := "512M", manufacturer := "Egoman",
                   processor := "BCM2835", type := "Model B", revision := "000d".toList }) :=
  legacy_000d none none _ [] [] blankInfo (by decide) (by decide)

/-- Claim C6: on the text path, when the loop has recognised the hardware and the captured
token is non-empty, is decoded by the old scheme, and its last four characters are none of
the sixteen listed codes, the call returns `0` with connector revision 3, board type,
processor, manufacturer and ram all "Unknown", and the token as raw revision. -/
theorem legacy_unrecognized_degrades (linux_revision : Option Nat)
    (model : Option (List Char)) (lines : List (List Char)) (hardware0 revision0 : List Char)
    (info : rpi_info)
    (hfound : (scanLines hardware0 revision0 lines).found = true)
    (hne : (scanLines hardware0 revision0 lines).revision ≠ [])
    (hold : isNewScheme (scanLines hardware0 revision0 lines).revision = some false)
    (hcode : lastFour (scanLines hardware0 revision0 lines).revision ∉ legacyCodes) :
    get_rpi_info_cpuinfo ⟨linux_revision, model, some lines⟩ hardware0 revision0 info
      = some (0, { p1_revision := 3, ram := "Unknown", manufacturer := "Unknown",
                   processor := "Unknown", type := "Unknown",
                   revision := (scanLines hardware0 revision0 lines).revision }) := by
  rw [get_rpi_info_cpuinfo_decode _ _ _ _ _ _ hfound hne, hold]
  simp only [legacyCodes, List.mem_cons, List.mem_singleton, not_or, List.not_mem_nil,
    or_false] at hcode
  obtain ⟨c1, c2, c3, c4, c5, c6, c7, c8, c9, c10, c11, c12, c13, c14, c15, c16⟩ := hcode
  show some ((0 : Int), decodeOldScheme _ info) = _
  unfold decodeOldScheme
  simp only [c1, c2, c3, c4, c5, c6, c7, c8, c9, c10, c11, c12, c13, c14, c15, c16,
    decide_False, Bool.or_self, Bool.false_eq_true, if_false]

/-- Witness for C6: a `/proc/cpuinfo` with token "ffff". -/
theorem legacy_unrecognized_degrades_witness :
    get_rpi_info_cpuinfo
        ⟨none, none, some ["Hardware\t: BCM2835\n".toList, "Revision\t: ffff\n".toList]⟩
        [] [] blankInfo
      = some (0, { p1_revision := 3, ram := "Unknown", manufacturer := "Unknown",
                   processor := "Unknown", type := "Unknown", revision := "ffff".toList }) :=
  legacy_unrecognized_degrades none none _ [] [] blankInfo (by decide) (by decide) (by decide)
    (by decide)

/-- The old-scheme decoder stores the string as raw revision. -/
theorem decodeOldScheme_revision (revision : List Char) (info : rpi_info) :
    (decodeOldScheme revision info).revision = revision := by
  unfold decodeOldScheme
  simp only [apply_ite rpi_info.revision, ite_self]

/-- The loop leaves `found` unset when no line yields a known identifier. -/
theorem scanLines_not_found (hardware0 revision0 : List Char) (lines : List (List Char))
    (hentry : isKnownHardware hardware0 = false)
    (hlines : ∀ l ∈ lines, yieldsHardware l = false) :
    (scanLines hardware0 revision0 lines).found = false := by
  rw [← Bool.not_eq_true, scanLines_found_iff hardware0 revision0 lines hentry]
  rintro ⟨l, hl, hy⟩
  rw [hlines l hl] at hy
  cases hy

/-- When the `hardware` array does not hold one of the five identifiers on entry and no line
yields one, the call returns `-1` and the caller's record comes back unchanged, whatever
`Revision` lines the source contains.  The assumption on the array is needed: the array is
compared before anything is stored in it. -/
theorem unrecognized_hardware_fails (linux_revision : Option Nat)
    (model : Option (List Char)) (lines : List (List Char)) (hardware0 revision0 : List Char)
    (info : rpi_info)
    (hentry : isKnownHardware hardware0 = false)
    (hlines : ∀ l ∈ lines, yieldsHardware l = false) :
    get_rpi_info_cpuinfo ⟨linux_revision, model, some lines⟩ hardware0 revision0 info
      = some (-1, info) := by
  exact get_rpi_info_cpuinfo_not_found _ _ _ _ _ _
    (scanLines_not_found hardware0 revision0 lines hentry hlines)

/-- An instance of `unrecognized_hardware_fails`: a source whose hardware line names an
unlisted chip and which carries a well-formed revision line. -/
theorem unrecognized_hardware_fails_witness :
    get_rpi_info_cpuinfo
        ⟨none, none, some ["processor\t: 0\n".toList, "Hardware\t: BCM2711\n".toList,
          "Revision\t: a02082\n".toList]⟩ [] [] blankInfo
      = some (-1, blankInfo) :=
  unrecognized_hardware_fails none none _ [] [] blankInfo (by decide) (by decide)

/-- With the text source opened, the `revision` array empty on entry and the `hardware` array
not holding one of the five identifiers on entry, the call returns `-1` (record unchanged)
exactly when no line yields a known hardware identifier or no line carries a revision token;
otherwise it returns `0` with a record whose raw revision is the non-empty captured token,
whatever the token is.  The assumption on the `hardware` array is needed: the array is
compared before anything is stored in it. -/
theorem text_failure_exact (linux_revision : Option Nat) (model : Option (List Char))
    (lines : List (List Char)) (hardware0 : List Char) (info : rpi_info)
    (hentry : isKnownHardware hardware0 = false) :
    (((∀ l ∈ lines, yieldsHardware l = false) ∨ (∀ l ∈ lines, yieldsRevision l = false)) →
      get_rpi_info_cpuinfo ⟨linux_revision, model, some lines⟩ hardware0 [] info
        = some (-1, info)) ∧
    ((∃ l ∈ lines, yieldsHardware l = true) → (∃ l ∈ lines, yieldsRevision l = true) →
      ∃ rec : rpi_info,
        get_rpi_info_cpuinfo ⟨linux_revision, model, some lines⟩ hardware0 [] info
          = some (0, rec) ∧
        rec.revision = (scanLines hardware0 [] lines).revision ∧ rec.revision ≠ []) ∧
    ((∃ rec : rpi_info,
        get_rpi_info_cpuinfo ⟨linux_revision, model, some lines⟩ hardware0 [] info
          = some (-1, rec)) ↔
      ((∀ l ∈ lines, yieldsHardware l = false) ∨ (∀ l ∈ lines, yieldsRevision l = false))) := by
  have hfail : ((∀ l ∈ lines, yieldsHardware l = false) ∨
      (∀ l ∈ lines, yieldsRevision l = false)) →
      get_rpi_info_cpuinfo ⟨linux_revision, model, some lines⟩ hardware0 [] info
        = some (-1, info) := by
    rintro (h | h)
    · exact get_rpi_info_cpuinfo_not_found _ _ _ _ _ _
        (scanLines_not_found hardware0 [] lines hentry h)
    · exact get_rpi_info_cpuinfo_empty _ _ _ _ _ _
        ((scanLines_revision_nil_iff hardware0 lines).2 h)
  have hok : (∃ l ∈ lines, yieldsHardware l = true) → (∃ l ∈ lines, yieldsRevision l = true) →
      ∃ rec : rpi_info,
        get_rpi_info_cpuinfo ⟨linux_revision, model, some lines⟩ hardware0 [] info
          = some (0, rec) ∧
        rec.revision = (scanLines hardware0 [] lines).revision ∧ rec.revision ≠ [] := by
    intro hh hr
    have hfound : (scanLines hardware0 [] lines).found = true :=
      (scanLines_found_iff hardware0 [] lines hentry).2 hh
    have htoken : (scanLines hardware0 [] lines).revision ≠ [] := by
      rw [Ne, scanLines_revision_nil_iff]
      intro hall
      obtain ⟨l, hl, hy⟩ := hr
      rw [hall l hl] at hy
      cases hy
    rw [get_rpi_info_cpuinfo_decode _ _ _ _ _ _ hfound htoken]
    obtain ⟨b, hb⟩ := isNewScheme_some (scanLines hardware0 [] lines).revision
    rw [hb]
    cases b with
    | false =>
      refine ⟨_, rfl, ?_, ?_⟩
      · exact decodeOldScheme_revision _ _
      · rw [decodeOldScheme_revision]
        exact htoken
    | true =>
      obtain ⟨rec, hrec, hrev⟩ := decodeNewScheme_some _ info (isNewScheme_true_length _ hb)
      refine ⟨rec, ?_, hrev, ?_⟩
      · show (decodeNewScheme _ info).bind _ = _
        rw [hrec]
        rfl
      · rw [hrev]
        exact htoken
  refine ⟨hfail, hok, ⟨?_, fun h => ⟨info, hfail h⟩⟩⟩
  rintro ⟨rec, hrec⟩
  by_contra hcon
  rw [not_or] at hcon
  obtain ⟨hh, hr⟩ := hcon
  have hh2 : ∃ l ∈ lines, yieldsHardware l = true := by
    by_contra hno
    apply hh
    intro l hl
    rw [← Bool.not_eq_true]
    exact fun hy => hno ⟨l, hl, hy⟩
  have hr2 : ∃ l ∈ lines, yieldsRevision l = true := by
    by_contra hno
    apply hr
    intro l hl
    rw [← Bool.not_eq_true]
    exact fun hy => hno ⟨l, hl, hy⟩
  obtain ⟨rec2, hrec2, -, -⟩ := hok hh2 hr2
  rw [hrec2] at hrec
  injection hrec with hrec
  injection hrec with hcode _
  exact absurd hcode (by decide)

/-- An instance of `text_failure_exact`: a source with a hardware line and no revision line
fails; the same source with a revision line whose token matches no scheme succeeds. -/
theorem text_failure_exact_witness :
    isKnownHardware [] = false ∧
    get_rpi_info_cpuinfo
        ⟨none, none, some ["Hardware\t: BCM2835\n".toList, "Serial\t\t: 0000\n".toList]⟩
        [] [] blankInfo
      = some (-1, blankInfo) ∧
    ∃ rec : rpi_info,
      get_rpi_info_cpuinfo
          ⟨none, none, some ["Hardware\t: BCM2835\n".toList, "Revision\t: zz-top!\n".toList]⟩
          [] [] blankInfo
        = some (0, rec) ∧
      rec.revision
        = (scanLines [] [] ["Hardware\t: BCM2835\n".toList,
            "Revision\t: zz-top!\n".toList]).revision ∧
      rec.revision ≠ [] :=
  ⟨by decide,
    (text_failure_exact none none _ [] blankInfo (by decide)).1 (Or.inr (by decide)),
    (text_failure_exact none none _ [] blankInfo (by decide)).2.1 (by decide) (by decide)⟩

/-! ## Facts about the decoded record -/

theorem switchType_shape (c : Char) (info : rpi_info) :
    switchType c info = { info with type := (switchType c blankInfo).type,
                                    p1_revision := (switchType c blankInfo).p1_revision } := by
  by_cases h0 : c = '0'
  · subst h0; rfl
  by_cases h1 : c = '1'
  · subst h1; rfl
  by_cases h2 : c = '2'
  · subst h2; rfl
  by_cases h3 : c = '3'
  · subst h3; rfl
  by_cases h4 : c = '4'
  · subst h4; rfl
  by_cases h5 : c = '5'
  · subst h5; rfl
  by_cases h6 : c = '6'
  · subst h6; rfl
  by_cases h8 : c = '8'
  · subst h8; rfl
  by_cases h9 : c = '9'
  · subst h9; rfl
  simp only [switchType, h0, h1, h2, h3, h4, h5, h6, h8, h9, if_false]

theorem switchProcessor_shape (c : Char) (info : rpi_info) :
    switchProcessor c info
      = { info with processor := (switchProcessor c blankInfo).processor } := by
  unfold switchProcessor
  split_ifs <;> rfl

theorem switchManufacturer_shape (c : Char) (info : rpi_info) :
    switchManufacturer c info
      = { info with manufacturer := (switchManufacturer c blankInfo).manufacturer } := by
  unfold switchManufacturer
  split_ifs <;> rfl

theorem switchRam_shape (c : Char) (info : rpi_info) :
    switchRam c info = { info with ram := (switchRam c blankInfo).ram } := by
  unfold switchRam
  split <;> rfl

/-- The new-scheme decoder in closed form: every member of the result is fixed by one
character of the string, none by the record before the call. -/
theorem decodeNewScheme_eq (revision : List Char) (info : rpi_info) (c2 c4 c5 c6 : Char)
    (h2 : charAt revision (revision.length - 2) = some c2)
    (h4 : charAt revision (revision.length - 4) = some c4)
    (h5 : charAt revision (revision.length - 5) = some c5)
    (h6 : charAt revision (revision.length - 6) = some c6) :
    decodeNewScheme revision info
      = some { p1_revision := (switchType c2 blankInfo).p1_revision,
               ram := (switchRam c6 blankInfo).ram,
               manufacturer := (switchManufacturer c5 blankInfo).manufacturer,
               processor := (switchProcessor c4 blankInfo).processor,
               type := (switchType c2 blankInfo).type,
               revision := revision } := by
  unfold decodeNewScheme
  simp only [h2, h4, h5, h6]
  show some (switchRam c6 (switchManufacturer c5 (switchProcessor c4
    (switchType c2 { info with revision := revision })))) = _
  rw [switchRam_shape, switchManufacturer_shape, switchProcessor_shape, switchType_shape]

/-- The old-scheme decoder does not look at the record before the call. -/
theorem decodeOldScheme_indep (revision : List Char) (info info2 : rpi_info) :
    decodeOldScheme revision info = decodeOldScheme revision info2 := rfl

theorem switchType_mem (c : Char) :
    (switchType c blankInfo).type ∈ textTypeNames ∧
    (switchType c blankInfo).p1_revision ∈ [0, 2, 3] := by
  unfold switchType
  split_ifs <;> decide

theorem switchProcessor_mem (c : Char) :
    (switchProcessor c blankInfo).processor ∈ textProcessorNames := by
  unfold switchProcessor
  split_ifs <;> decide

theorem switchManufacturer_mem (c : Char) :
    (switchManufacturer c blankInfo).manufacturer ∈ textMakerNames := by
  unfold switchManufacturer
  split_ifs <;> decide

theorem switchRam_mem (c : Char) : (switchRam c blankInfo).ram ∈ textMemorySizes := by
  unfold switchRam
  split <;> decide

/-- A property of both branches of a conditional holds of the conditional. -/
theorem ite_prop {α : Type} (P : α → Prop) (c : Prop) [Decidable c] (a b : α)
    (ha : P a) (hb : P b) : P (if c then a else b) := by
  split <;> assumption

/-- Every member stored by the old-scheme decoder is one of the text path's literals. -/
theorem decodeOldScheme_mem (revision : List Char) (info : rpi_info) :
    (fun r : rpi_info =>
      r.type ∈ textTypeNames ∧ r.processor ∈ textProcessorNames ∧
      r.manufacturer ∈ textMakerNames ∧ r.ram ∈ textMemorySizes ∧
      r.p1_revision ∈ [0, 1, 2, 3]) (decodeOldScheme revision info) := by
  unfold decodeOldScheme
  repeat' apply ite_prop (fun r : rpi_info =>
      r.type ∈ textTypeNames ∧ r.processor ∈ textProcessorNames ∧
      r.manufacturer ∈ textMakerNames ∧ r.ram ∈ textMemorySizes ∧
      r.p1_revision ∈ [0, 1, 2, 3])
  all_goals dsimp only
  all_goals decide

/-! ## Facts about the hexadecimal rendering -/

/-- The accumulator of `hexDigitsAux` is carried to the end unchanged. -/
theorem hexDigitsAux_append (fuel : Nat) :
    ∀ (n : Nat) (acc : List Char), hexDigitsAux fuel n acc = hexDigitsAux fuel n [] ++ acc := by
  induction fuel with
  | zero =>
    intro n acc
    rfl
  | succ f ih =>
    intro n acc
    unfold hexDigitsAux
    by_cases h : n / 16 = 0
    · simp only [h, if_true, List.singleton_append]
    · simp only [h, if_false]
      rw [ih (n / 16) (Nat.digitChar (n % 16) :: acc), ih (n / 16) [Nat.digitChar (n % 16)]]
      simp

/-- The rendering is the rendering of the quotient followed by the last digit. -/
theorem hexDigitsAux_succ (fuel n : Nat) :
    hexDigitsAux (fuel + 1) n []
      = (if n / 16 = 0 then [] else hexDigitsAux fuel (n / 16) [])
          ++ [Nat.digitChar (n % 16)] := by
  rw [hexDigitsAux]
  by_cases h : n / 16 = 0
  · simp only [h, if_true, List.nil_append]
  · simp only [h, if_false]
    exact hexDigitsAux_append fuel (n / 16) _

theorem digitChar_hexDigitValue : ∀ d, d < 16 → hexDigitValue (Nat.digitChar d) = some d := by
  decide

theorem digitChar_strtol16 : ∀ d, d < 16 → strtol16 (Nat.digitChar d) = d := by
  decide

theorem digitChar_lower : ∀ d, d < 16 → Nat.digitChar d ∈ "0123456789abcdef".toList := by
  decide

theorem digitChar_ne_zero : ∀ d, d < 16 → d ≠ 0 → Nat.digitChar d ≠ '0' := by
  decide

/-- With fuel left the rendering has at least one digit. -/
theorem hexDigitsAux_ne_nil (fuel n : Nat) : hexDigitsAux (fuel + 1) n [] ≠ [] := by
  rw [hexDigitsAux_succ]
  simp

theorem sprintf_x_ne_nil (v : Nat) : sprintf_x v ≠ [] :=
  hexDigitsAux_ne_nil 7 v

/-- Every character of the rendering is a lower-case hexadecimal digit. -/
theorem hexDigitsAux_lower (fuel : Nat) :
    ∀ n : Nat, ∀ c ∈ hexDigitsAux fuel n [], c ∈ "0123456789abcdef".toList := by
  induction fuel with
  | zero =>
    intro n c hc
    simp [hexDigitsAux] at hc
  | succ f ih =>
    intro n c hc
    rw [hexDigitsAux_succ, List.mem_append, List.mem_singleton] at hc
    rcases hc with hc | hc
    · by_cases h : n / 16 = 0
      · simp [h] at hc
      · rw [if_neg h] at hc
        exact ih _ c hc
    · rw [hc]
      exact digitChar_lower _ (Nat.mod_lt _ (by decide))

/-- The rendering of a non-zero number that fits the fuel does not start with `'0'`. -/
theorem hexDigitsAux_head (fuel : Nat) :
    ∀ n : Nat, n < 16 ^ fuel → n ≠ 0 → (hexDigitsAux fuel n []).head? ≠ some '0' := by
  induction fuel with
  | zero =>
    intro n hn h0
    simp at hn
    exact absurd hn h0
  | succ f ih =>
    intro n hn h0
    rw [hexDigitsAux_succ]
    by_cases h : n / 16 = 0
    · have hlt : n < 16 := by
        rcases Nat.lt_or_ge n 16 with h1 | h1
        · exact h1
        · have : 1 ≤ n / 16 := (Nat.le_div_iff_mul_le (by decide)).2 (by omega)
          omega
      have hmod : n % 16 = n := Nat.mod_eq_of_lt hlt
      simp only [h, if_true, List.nil_append, List.head?_cons, hmod]
      intro hc
      exact digitChar_ne_zero n hlt h0 (Option.some.inj hc)
    · rw [if_neg h]
      have hq : n / 16 < 16 ^ f := by
        rw [Nat.div_lt_iff_lt_mul (by decide)]
        rw [Nat.pow_succ] at hn
        exact hn
      have hrec := ih (n / 16) hq h
      cases hx : hexDigitsAux f (n / 16) [] with
      | nil =>
        rw [hx] at hrec
        cases f with
        | zero => simp at hq; exact absurd hq h
        | succ g => exact absurd hx (hexDigitsAux_ne_nil g _)
      | cons a as =>
        rw [hx] at hrec
        simpa using hrec

/-- Reading the rendering back, digit by digit, gives the number. -/
theorem hexDigitsAux_foldl (fuel : Nat) :
    ∀ n : Nat, n < 16 ^ fuel → 0 < fuel →
      (hexDigitsAux fuel n []).foldl (fun acc c =>
        match acc, hexDigitValue c with
        | some a, some d => some (a * 16 + d)
        | _, _ => none) (some 0) = some n := by
  induction fuel with
  | zero =>
    intro n _ hf
    exact absurd hf (by decide)
  | succ f ih =>
    intro n hn _
    rw [hexDigitsAux_succ, List.foldl_append]
    have hd : hexDigitValue (Nat.digitChar (n % 16)) = some (n % 16) :=
      digitChar_hexDigitValue _ (Nat.mod_lt _ (by decide))
    by_cases h : n / 16 = 0
    · simp only [h, if_true, List.foldl_nil, List.foldl_cons, hd]
      have : n % 16 = n := by omega
      simp [this]
    · rw [if_neg h]
      have hq : n / 16 < 16 ^ f := by
        rw [Nat.div_lt_iff_lt_mul (by decide)]
        rw [Nat.pow_succ] at hn
        exact hn
      have hf : 0 < f := by
        rcases Nat.eq_zero_or_pos f with h0 | h0
        · subst h0
          simp at hq
          exact absurd hq h
        · exact h0
      rw [ih (n / 16) hq hf]
      simp only [List.foldl_cons, List.foldl_nil, hd]
      congr 1
      omega

/-- The rendering of a 32-bit number can be read back. -/
theorem parseHex_sprintf_x (v : Nat) (hv : v < 2 ^ 32) : parseHex (sprintf_x v) = some v := by
  unfold parseHex
  have hne : (sprintf_x v).isEmpty = false := by
    cases h : sprintf_x v with
    | nil => exact absurd h (sprintf_x_ne_nil v)
    | cons a as => rfl
  rw [hne]
  simp only [Bool.false_eq_true, if_false]
  exact hexDigitsAux_foldl 8 v (by omega) (by decide)

/-! ## What a successful call leaves in the record -/

/-- The packed path either works on one 32-bit word, whatever the record, or fails whatever
the record.  The word is the one read from the binary attribute, or `0xa020d3` when the
attribute cannot be opened. -/
theorem get_rpi_info_aarch64_cases (fs : Files) :
    (∃ w : Nat, w < 2 ^ 32 ∧
      (∀ word : Nat, fs.linux_revision = some word → w = word % 2 ^ 32) ∧
      (fs.linux_revision = none → w = 0xa020d3) ∧
      ∀ info : rpi_info,
        get_rpi_info_aarch64 fs info = get_rpi_info_aarch64 ⟨some w, none, none⟩ info) ∨
    (∀ info : rpi_info, get_rpi_info_aarch64 fs info = some (-1, info)) := by
  obtain ⟨lr, model, cpuinfo⟩ := fs
  cases lr with
  | some word =>
    refine Or.inl ⟨word % 2 ^ 32, Nat.mod_lt _ (by decide),
      fun word2 h2 => (by rw [Option.some.inj h2]), fun h2 => (by cases h2), fun info => ?_⟩
    simp only [get_rpi_info_aarch64, Nat.mod_mod]
  | none =>
    cases model with
    | none =>
      exact Or.inr (fun info => rfl)
    | some text =>
      by_cases hs : strstr text "Raspberry Pi 3 Model B+".toList = true
      · refine Or.inl ⟨0xa020d3, by decide, fun word2 h2 => (by cases h2), fun _ => rfl,
          fun info => ?_⟩
        simp only [get_rpi_info_aarch64, hs, if_true]
        rfl
      · refine Or.inr (fun info => ?_)
        have hs2 : strstr text "Raspberry Pi 3 Model B+".toList = false := by
          rw [← Bool.not_eq_true]
          exact hs
        simp only [get_rpi_info_aarch64, hs2, Bool.false_eq_true, if_false]

/-- A successful call on the packed path: the word - the one read from the binary attribute,
or `0xa020d3` when the attribute cannot be opened - has bit 23 set and a board-type code
below 16, the five members are the table entries at the five codes, the raw revision is the
rendering of the word, and the same record results from any record before the call. -/
theorem get_rpi_info_aarch64_success (fs : Files) (info rec : rpi_info)
    (h : get_rpi_info_aarch64 fs info = some (0, rec)) :
    ∃ w : Nat, w < 2 ^ 32 ∧
      (∀ word : Nat, fs.linux_revision = some word → w = word % 2 ^ 32) ∧
      (fs.linux_revision = none → w = 0xa020d3) ∧
      bType w < 16 ∧
      w &&& (1 <<< 23) ≠ 0 ∧
      piRevision[bRev w]? = some rec.p1_revision ∧
      piMemorySize[bMem w]? = some rec.ram ∧
      piMakerNames[bMfg w]? = some rec.manufacturer ∧
      piProcesorNames[bProc w]? = some rec.processor ∧
      piModelNames[bType w]? = some rec.type ∧
      rec.revision = sprintf_x w ∧
      ∀ info2 : rpi_info, get_rpi_info_aarch64 fs info2 = some (0, rec) := by
  rcases get_rpi_info_aarch64_cases fs with ⟨w, hw, htie1, htie2, hcase⟩ | hfail
  · have hmod : w % 2 ^ 32 = w := Nat.mod_eq_of_lt hw
    rw [hcase] at h
    by_cases hbit : w &&& (1 <<< 23) = 0
    · rw [get_rpi_info_aarch64_old w none none info (by rw [hmod]; exact hbit)] at h
      injection h with h
      injection h with hcode _
      exact absurd hcode (by decide)
    · have hnew := fun i : rpi_info =>
        get_rpi_info_aarch64_new w none none i (by rw [hmod]; exact hbit)
      rw [hmod] at hnew
      rw [hnew] at h
      cases e1 : piRevision[bRev w]? with
      | none => rw [e1] at h; cases h
      | some x1 =>
      cases e2 : piMemorySize[bMem w]? with
      | none => rw [e1, e2] at h; cases h
      | some x2 =>
      cases e3 : piMakerNames[bMfg w]? with
      | none => rw [e1, e2, e3] at h; cases h
      | some x3 =>
      cases e4 : piProcesorNames[bProc w]? with
      | none => rw [e1, e2, e3, e4] at h; cases h
      | some x4 =>
      cases e5 : piModelNames[bType w]? with
      | none => rw [e1, e2, e3, e4, e5] at h; cases h
      | some x5 =>
      rw [e1, e2, e3, e4, e5] at h
      have hrec : rec = { p1_revision := x1, ram := x2, manufacturer := x3, processor := x4,
                          type := x5, revision := sprintf_x w } := by
        injection h with h
        injection h with _ h
        exact h.symm
      subst hrec
      have htype : bType w < 16 := by
        by_contra hc
        have hlen : piModelNames.length ≤ bType w := by
          have : piModelNames.length = 16 := rfl
          omega
        rw [List.getElem?_eq_none hlen] at e5
        cases e5
      refine ⟨w, hw, htie1, htie2, htype, hbit, e1, e2, e3, e4, e5, rfl, fun info2 => ?_⟩
      rw [hcase, hnew, e1, e2, e3, e4, e5]
      rfl
  · rw [hfail] at h
    injection h with h
    injection h with hcode _
    exact absurd hcode (by decide)

/-- A successful call on the text path: `found` is set, the token is not empty, and the
record is the old-scheme or the new-scheme decoding of the token. -/
theorem get_rpi_info_cpuinfo_success (fs : Files) (hardware0 revision0 : List Char)
    (info rec : rpi_info)
    (h : get_rpi_info_cpuinfo fs hardware0 revision0 info = some (0, rec)) :
    ∃ lines : List (List Char), fs.cpuinfo = some lines ∧
      (scanLines hardware0 revision0 lines).found = true ∧
      (scanLines hardware0 revision0 lines).revision ≠ [] ∧
      ((isNewScheme (scanLines hardware0 revision0 lines).revision = some false ∧
          ∀ info2 : rpi_info,
            rec = decodeOldScheme (scanLines hardware0 revision0 lines).revision info2) ∨
        (isNewScheme (scanLines hardware0 revision0 lines).revision = some true ∧
          ∀ info2 : rpi_info,
            decodeNewScheme (scanLines hardware0 revision0 lines).revision info2
              = some rec)) := by
  obtain ⟨lr, model, cpuinfo⟩ := fs
  cases cpuinfo with
  | none =>
    have hfail : get_rpi_info_cpuinfo ⟨lr, model, none⟩ hardware0 revision0 info
        = some (-1, info) := rfl
    rw [hfail] at h
    injection h with h
    injection h with hcode _
    exact absurd hcode (by decide)
  | some lines =>
    refine ⟨lines, rfl, ?_⟩
    cases hfound : (scanLines hardware0 revision0 lines).found with
    | false =>
      rw [get_rpi_info_cpuinfo_not_found lr model lines hardware0 revision0 info hfound] at h
      injection h with h
      injection h with hcode _
      exact absurd hcode (by decide)
    | true =>
      by_cases htoken : (scanLines hardware0 revision0 lines).revision = []
      · rw [get_rpi_info_cpuinfo_empty lr model lines hardware0 revision0 info htoken] at h
        injection h with h
        injection h with hcode _
        exact absurd hcode (by decide)
      · refine ⟨rfl, htoken, ?_⟩
        rw [get_rpi_info_cpuinfo_decode lr model lines hardware0 revision0 info hfound
          htoken] at h
        obtain ⟨b, hb⟩ := isNewScheme_some (scanLines hardware0 revision0 lines).revision
        rw [hb] at h
        cases b with
        | false =>
          refine Or.inl ⟨hb, fun info2 => ?_⟩
          have h2 : some ((0 : Int), decodeOldScheme
              (scanLines hardware0 revision0 lines).revision info) = some (0, rec) := h
          injection h2 with h2
          injection h2 with _ h2
          rw [← h2]
          exact decodeOldScheme_indep _ _ _
        | true =>
          refine Or.inr ⟨hb, fun info2 => ?_⟩
          have hlen := isNewScheme_true_length _ hb
          obtain ⟨c2, h2⟩ := charAt_some (scanLines hardware0 revision0 lines).revision
            ((scanLines hardware0 revision0 lines).revision.length - 2) (by omega) (by omega)
          obtain ⟨c4, h4⟩ := charAt_some (scanLines hardware0 revision0 lines).revision
            ((scanLines hardware0 revision0 lines).revision.length - 4) (by omega) (by omega)
          obtain ⟨c5, h5⟩ := charAt_some (scanLines hardware0 revision0 lines).revision
            ((scanLines hardware0 revision0 lines).revision.length - 5) (by omega) (by omega)
          obtain ⟨c6, h6⟩ := charAt_some (scanLines hardware0 revision0 lines).revision
            ((scanLines hardware0 revision0 lines).revision.length - 6) (by omega) (by omega)
          rw [decodeNewScheme_eq _ info c2 c4 c5 c6 h2 h4 h5 h6] at h
          obtain ⟨x, hx⟩ : ∃ x : rpi_info, some ((0 : Int), x) = some (0, rec) ∧
              decodeNewScheme (scanLines hardware0 revision0 lines).revision info2 = some x :=
            ⟨_, h, decodeNewScheme_eq _ info2 c2 c4 c5 c6 h2 h4 h5 h6⟩
          have h3 := hx.1
          injection h3 with h3
          injection h3 with _ h3
          rw [← h3]
          exact hx.2

/-- Claim C11, as stated, fails on the text path: for the token "0005" the call succeeds and
stores the manufacturer "Qisda", which is neither an entry of `piMakerNames` nor the literal
"Unknown". -/
theorem text_member_outside_tables :
    ¬ ∀ rec : rpi_info,
      get_rpi_info false
          ⟨none, none, some ["Hardware\t: BCM2708\n".toList, "Revision\t: 0005\n".toList]⟩
          [] [] blankInfo = some (0, rec) →
      rec.manufacturer ∈ piMakerNames ∨ rec.manufacturer = "Unknown" := by
  intro hall
  have h := hall { p1_revision := 2, ram := "256M", manufacturer := "Qisda",
                   processor := "BCM2835", type := "Model B", revision := "0005".toList }
    (by decide)
  revert h
  decide

/-- Claim C11, amended: whenever the call returns `0`, board type, processor, manufacturer
and ram are non-empty strings - entries of the four string tables on the packed path, string
literals of the decoder on the text path (among them "Unknown", and names that are in no
table such as "Qisda" or "Pi 2 Model B") - the connector revision is one of 0, 1, 2, 3, the
raw revision is the non-empty token (on the packed path the hexadecimal rendering of the word
read, or of `0xa020d3` when the model-string fallback supplied the word; on the text path the
captured token), and the record does not depend on the record before the call, so all six
members have been assigned.  On the packed path this covers the words whose board-type code
(bits 4..11) is below 16, as the statement says of the word: for the type codes 16..255 the
call reads outside `piModelNames`, has no result here, and nothing is said of it. -/
theorem success_populates_record (aarch64 : Bool) (fs : Files)
    (hardware0 revision0 : List Char) (info rec : rpi_info)
    (h : get_rpi_info aarch64 fs hardware0 revision0 info = some (0, rec)) :
    (rec.type ≠ "" ∧ rec.processor ≠ "" ∧ rec.manufacturer ≠ "" ∧ rec.ram ≠ "") ∧
    (aarch64 = true →
      rec.type ∈ piModelNames ∧ rec.processor ∈ piProcesorNames ∧
      rec.manufacturer ∈ piMakerNames ∧ rec.ram ∈ piMemorySize ∧
      ∃ w : Nat, w < 2 ^ 32 ∧
        (∀ word : Nat, fs.linux_revision = some word → w = word % 2 ^ 32) ∧
        (fs.linux_revision = none → w = 0xa020d3) ∧
        w &&& (1 <<< 23) ≠ 0 ∧ bType w < 16 ∧
        rec.revision = sprintf_x w) ∧
    (aarch64 = false →
      rec.type ∈ textTypeNames ∧ rec.processor ∈ textProcessorNames ∧
      rec.manufacturer ∈ textMakerNames ∧ rec.ram ∈ textMemorySizes ∧
      ∀ lines : List (List Char), fs.cpuinfo = some lines →
        rec.revision = (scanLines hardware0 revision0 lines).revision) ∧
    rec.p1_revision ∈ [0, 1, 2, 3] ∧
    rec.revision ≠ [] ∧
    ∀ info2 : rpi_info, get_rpi_info aarch64 fs hardware0 revision0 info2 = some (0, rec) := by
  have ne1 : ∀ s ∈ piModelNames, s ≠ "" := by decide
  have ne2 : ∀ s ∈ piProcesorNames, s ≠ "" := by decide
  have ne3 : ∀ s ∈ piMakerNames, s ≠ "" := by decide
  have ne4 : ∀ s ∈ piMemorySize, s ≠ "" := by decide
  have ne5 : ∀ s ∈ textTypeNames, s ≠ "" := by decide
  have ne6 : ∀ s ∈ textProcessorNames, s ≠ "" := by decide
  have ne7 : ∀ s ∈ textMakerNames, s ≠ "" := by decide
  have ne8 : ∀ s ∈ textMemorySizes, s ≠ "" := by decide
  have rv1 : ∀ x ∈ piRevision, x ∈ ([0, 1, 2, 3] : List Int) := by decide
  have rv2 : ∀ x ∈ ([0, 2, 3] : List Int), x ∈ ([0, 1, 2, 3] : List Int) := by decide
  cases aarch64 with
  | true =>
    have h1 : get_rpi_info_aarch64 fs info = some (0, rec) := h
    obtain ⟨w, hw, htie1, htie2, htype, hbit, e1, e2, e3, e4, e5, hrev, hind⟩ :=
      get_rpi_info_aarch64_success fs info rec h1
    have m1 := List.getElem?_mem e1
    have m2 := List.getElem?_mem e2
    have m3 := List.getElem?_mem e3
    have m4 := List.getElem?_mem e4
    have m5 := List.getElem?_mem e5
    refine ⟨⟨ne1 _ m5, ne2 _ m4, ne3 _ m3, ne4 _ m2⟩,
      fun _ => ⟨m5, m4, m3, m2, w, hw, htie1, htie2, hbit, htype, hrev⟩,
      fun hf => absurd hf (by decide), rv1 _ m1, ?_, fun info2 => hind info2⟩
    rw [hrev]
    exact sprintf_x_ne_nil w
  | false =>
    have h1 : get_rpi_info_cpuinfo fs hardware0 revision0 info = some (0, rec) := h
    obtain ⟨lines, hlines, hfound, htoken, hdec⟩ :=
      get_rpi_info_cpuinfo_success fs hardware0 revision0 info rec h1
    have hind : ∀ info2 : rpi_info,
        get_rpi_info false fs hardware0 revision0 info2 = some (0, rec) := by
      intro info2
      obtain ⟨lr, model, cpuinfo⟩ := fs
      simp only at hlines
      subst hlines
      show get_rpi_info_cpuinfo ⟨lr, model, some lines⟩ hardware0 revision0 info2 = _
      rw [get_rpi_info_cpuinfo_decode lr model lines hardware0 revision0 info2 hfound htoken]
      rcases hdec with ⟨hb, hd⟩ | ⟨hb, hd⟩
      · rw [hb, hd info2]
        rfl
      · rw [hb]
        show (decodeNewScheme _ info2).bind _ = _
        rw [hd info2]
        rfl
    have hmem : (rec.type ∈ textTypeNames ∧ rec.processor ∈ textProcessorNames ∧
        rec.manufacturer ∈ textMakerNames ∧ rec.ram ∈ textMemorySizes) ∧
        rec.p1_revision ∈ ([0, 1, 2, 3] : List Int) ∧
        rec.revision = (scanLines hardware0 revision0 lines).revision := by
      rcases hdec with ⟨_, hd⟩ | ⟨hb, hd⟩
      · rw [hd blankInfo]
        obtain ⟨a1, a2, a3, a4, a5⟩ :=
          decodeOldScheme_mem (scanLines hardware0 revision0 lines).revision blankInfo
        exact ⟨⟨a1, a2, a3, a4⟩, a5, decodeOldScheme_revision _ _⟩
      · have hlen := isNewScheme_true_length _ hb
        obtain ⟨c2, h2⟩ := charAt_some (scanLines hardware0 revision0 lines).revision
          ((scanLines hardware0 revision0 lines).revision.length - 2) (by omega) (by omega)
        obtain ⟨c4, h4⟩ := charAt_some (scanLines hardware0 revision0 lines).revision
          ((scanLines hardware0 revision0 lines).revision.length - 4) (by omega) (by omega)
        obtain ⟨c5, h5⟩ := charAt_some (scanLines hardware0 revision0 lines).revision
          ((scanLines hardware0 revision0 lines).revision.length - 5) (by omega) (by omega)
        obtain ⟨c6, h6⟩ := charAt_some (scanLines hardware0 revision0 lines).revision
          ((scanLines hardware0 revision0 lines).revision.length - 6) (by omega) (by omega)
        have heq := hd blankInfo
        rw [decodeNewScheme_eq _ blankInfo c2 c4 c5 c6 h2 h4 h5 h6] at heq
        have hrec := (Option.some.inj heq).symm
        subst hrec
        exact ⟨⟨(switchType_mem c2).1, switchProcessor_mem c4, switchManufacturer_mem c5,
          switchRam_mem c6⟩, rv2 _ (switchType_mem c2).2, rfl⟩
    obtain ⟨⟨a1, a2, a3, a4⟩, a5, a6⟩ := hmem
    refine ⟨⟨ne5 _ a1, ne6 _ a2, ne7 _ a3, ne8 _ a4⟩, fun hf => absurd hf (by decide),
      fun _ => ⟨a1, a2, a3, a4, fun lines2 hl2 => ?_⟩, a5, ?_, hind⟩
    · rw [hlines] at hl2
      rw [← Option.some.inj hl2]
      exact a6
    · rw [a6]
      exact htoken

/-- Witness for the amended C11: one successful call on each path. -/
theorem success_populates_record_witness :
    (get_rpi_info true ⟨some 0xa020d3, none, none⟩ [] [] blankInfo
        = some (0, { p1_revision := 3, ram := "1024M", manufacturer := "Sony",
                     processor := "BCM2837", type := "Pi 3+",
                     revision := "a020d3".toList }) ∧
      ∀ info2 : rpi_info, get_rpi_info true ⟨some 0xa020d3, none, none⟩ [] [] info2
        = some (0, { p1_revision := 3, ram := "1024M", manufacturer := "Sony",
                     processor := "BCM2837", type := "Pi 3+",
                     revision := "a020d3".toList })) ∧
    (get_rpi_info false
          ⟨none, none, some ["Hardware\t: BCM2708\n".toList, "Revision\t: 0005\n".toList]⟩
          [] [] blankInfo
        = some (0, { p1_revision := 2, ram := "256M", manufacturer := "Qisda",
                     processor := "BCM2835", type := "Model B",
                     revision := "0005".toList }) ∧
      ∀ info2 : rpi_info, get_rpi_info false
          ⟨none, none, some ["Hardware\t: BCM2708\n".toList, "Revision\t: 0005\n".toList]⟩
          [] [] info2
        = some (0, { p1_revision := 2, ram := "256M", manufacturer := "Qisda",
                     processor := "BCM2835", type := "Model B",
                     revision := "0005".toList })) :=
  ⟨⟨by decide,
      (success_populates_record true ⟨some 0xa020d3, none, none⟩ [] [] blankInfo _
        (by decide)).2.2.2.2.2⟩,
    ⟨by decide,
      (success_populates_record false
        ⟨none, none, some ["Hardware\t: BCM2708\n".toList, "Revision\t: 0005\n".toList]⟩
        [] [] blankInfo _ (by decide)).2.2.2.2.2⟩⟩

/-- Claim C12 fails on the code at `0xa01040` (bit 23 set, board-type code 4): the packed path
stores connector revision `piRevision[bRev] = piRevision[0] = 2`, while the text path stores 3
for the hexadecimal string "a01040" of the same code.  Indexed by the board-type code instead,
the table agrees with the text decoder on every type code the text decoder recognises. -/
theorem connector_revision_disagrees :
    (0xa01040 &&& (1 <<< 23) ≠ 0 ∧ bType 0xa01040 = 4 ∧ bRev 0xa01040 = 0 ∧
      sprintf_x 0xa01040 = "a01040".toList) ∧
    (get_rpi_info_aarch64 ⟨some 0xa01040, none, none⟩ blankInfo).map
        (fun r => (r.1, r.2.p1_revision)) = some (0, 2) ∧
    (get_rpi_info_cpuinfo
        ⟨none, none, some ["Hardware\t: BCM2709\n".toList, "Revision\t: a01040\n".toList]⟩
        [] [] blankInfo).map (fun r => (r.1, r.2.p1_revision)) = some (0, 3) ∧
    (∀ t ∈ [0, 1, 2, 3, 4, 5, 6, 8, 9],
      piRevision[t]? = some (switchType (Nat.digitChar t) blankInfo).p1_revision) := by
  decide

/-! ## Facts for the positional scheme -/

/-- The four positional reads of a string that ends in six given characters. -/
theorem charAt_last_six (pre : List Char) (c6 c5 c4 c3 c2 c1 : Char) :
    charAt (pre ++ [c6, c5, c4, c3, c2, c1])
        (((pre ++ [c6, c5, c4, c3, c2, c1]).length : Int) - 2) = some c2 ∧
    charAt (pre ++ [c6, c5, c4, c3, c2, c1])
        (((pre ++ [c6, c5, c4, c3, c2, c1]).length : Int) - 4) = some c4 ∧
    charAt (pre ++ [c6, c5, c4, c3, c2, c1])
        (((pre ++ [c6, c5, c4, c3, c2, c1]).length : Int) - 5) = some c5 ∧
    charAt (pre ++ [c6, c5, c4, c3, c2, c1])
        (((pre ++ [c6, c5, c4, c3, c2, c1]).length : Int) - 6) = some c6 := by
  have hlen : ((pre ++ [c6, c5, c4, c3, c2, c1]).length : Int) = pre.length + 6 := by
    simp
  have key : ∀ k : Nat, k < 6 →
      charAt (pre ++ [c6, c5, c4, c3, c2, c1]) ((pre.length : Int) + 6 - (6 - k : Nat))
        = [c6, c5, c4, c3, c2, c1][k]? := by
    intro k hk
    unfold charAt
    have h0 : (0 : Int) ≤ (pre.length : Int) + 6 - (6 - k : Nat) := by omega
    have hn : ((pre.length : Int) + 6 - (6 - k : Nat)).toNat = pre.length + k := by omega
    rw [if_pos h0, hn, List.getElem?_append_right (by omega)]
    congr 1
    omega
  rw [hlen]
  exact ⟨key 4 (by decide), key 2 (by decide), key 1 (by decide), key 0 (by decide)⟩

/-- On a hexadecimal digit `strtol` returns the digit's value, which is below 16. -/
theorem strtol16_of_hexDigitValue (c : Char) (d : Nat) (h : hexDigitValue c = some d) :
    strtol16 c = d ∧ d < 16 := by
  have klower : ∀ x ∈ "0123456789abcdef".toList,
      strtol16 x = "0123456789abcdef".toList.indexOf x ∧
      "0123456789abcdef".toList.indexOf x < 16 := by decide
  have kupper : ∀ x ∈ "0123456789ABCDEF".toList,
      strtol16 x = "0123456789ABCDEF".toList.indexOf x ∧
      "0123456789ABCDEF".toList.indexOf x < 16 := by decide
  unfold hexDigitValue at h
  simp only at h
  split_ifs at h with h1 h2
  · injection h with h
    rw [← h]
    exact klower c h1
  · injection h with h
    rw [← h]
    exact kupper c h2

/-- The type switch agrees with the specification's table, default "Unknown" / 3. -/
theorem switchType_spec (c : Char) :
    ((switchType c blankInfo).type, (switchType c blankInfo).p1_revision)
      = (positionalTypes.lookup c).getD ("Unknown", 3) := by
  by_cases h0 : c = '0'
  · subst h0; rfl
  by_cases h1 : c = '1'
  · subst h1; rfl
  by_cases h2 : c = '2'
  · subst h2; rfl
  by_cases h3 : c = '3'
  · subst h3; rfl
  by_cases h4 : c = '4'
  · subst h4; rfl
  by_cases h5 : c = '5'
  · subst h5; rfl
  by_cases h6 : c = '6'
  · subst h6; rfl
  by_cases h8 : c = '8'
  · subst h8; rfl
  by_cases h9 : c = '9'
  · subst h9; rfl
  have b0 : (c == '0') = false := by simpa using h0
  have b1 : (c == '1') = false := by simpa using h1
  have b2 : (c == '2') = false := by simpa using h2
  have b3 : (c == '3') = false := by simpa using h3
  have b4 : (c == '4') = false := by simpa using h4
  have b5 : (c == '5') = false := by simpa using h5
  have b6 : (c == '6') = false := by simpa using h6
  have b8 : (c == '8') = false := by simpa using h8
  have b9 : (c == '9') = false := by simpa using h9
  simp only [switchType, positionalTypes, List.lookup, h0, h1, h2, h3, h4, h5, h6, h8, h9,
    b0, b1, b2, b3, b4, b5, b6, b8, b9, if_false]
  rfl

/-- The processor switch agrees with the specification's table, default "Unknown". -/
theorem switchProcessor_spec (c : Char) :
    (switchProcessor c blankInfo).processor
      = (positionalProcessors.lookup c).getD "Unknown" := by
  by_cases h0 : c = '0'
  · subst h0; rfl
  by_cases h1 : c = '1'
  · subst h1; rfl
  by_cases h2 : c = '2'
  · subst h2; rfl
  have b0 : (c == '0') = false := by simpa using h0
  have b1 : (c == '1') = false := by simpa using h1
  have b2 : (c == '2') = false := by simpa using h2
  simp only [switchProcessor, positionalProcessors, List.lookup, h0, h1, h2, b0, b1, b2,
    if_false]
  rfl

/-- The manufacturer switch agrees with the specification's table, default "Unknown". -/
theorem switchManufacturer_spec (c : Char) :
    (switchManufacturer c blankInfo).manufacturer
      = (positionalMakers.lookup c).getD "Unknown" := by
  by_cases h0 : c = '0'
  · subst h0; rfl
  by_cases h1 : c = '1'
  · subst h1; rfl
  by_cases h2 : c = '2'
  · subst h2; rfl
  by_cases h4 : c = '4'
  · subst h4; rfl
  have b0 : (c == '0') = false := by simpa using h0
  have b1 : (c == '1') = false := by simpa using h1
  have b2 : (c == '2') = false := by simpa using h2
  have b4 : (c == '4') = false := by simpa using h4
  simp only [switchManufacturer, positionalMakers, List.lookup, h0, h1, h2, h4, b0, b1, b2,
    b4, if_false]
  rfl

/-- The ram switch agrees with the specification's table on the low three bits of the digit,
default "Unknown". -/
theorem switchRam_spec (c : Char) (d : Nat) (hd : hexDigitValue c = some d) :
    (switchRam c blankInfo).ram = (positionalRam.lookup (d % 8)).getD "Unknown" := by
  obtain ⟨hs, hlt⟩ := strtol16_of_hexDigitValue c d hd
  have key : ∀ d, d < 16 →
      (match d &&& 7 with
        | 0 => ({ blankInfo with ram := "256M" } : rpi_info)
        | 1 => { blankInfo with ram := "512M" }
        | 2 => { blankInfo with ram := "1024M" }
        | _ => { blankInfo with ram := "Unknown" }).ram
        = (positionalRam.lookup (d % 8)).getD "Unknown" := by
    decide
  unfold switchRam
  rw [hs]
  exact key d hlt

/-- A string that ends in six characters, the first of them a hexadecimal digit with bit 3
set, is decoded by the new scheme. -/
theorem isNewScheme_of_digit (pre : List Char) (c6 c5 c4 c3 c2 c1 : Char) (d : Nat)
    (hd : hexDigitValue c6 = some d) (hbit : d.testBit 3 = true) :
    isNewScheme (pre ++ [c6, c5, c4, c3, c2, c1]) = some true := by
  obtain ⟨hs, hlt⟩ := strtol16_of_hexDigitValue c6 d hd
  have key : ∀ d, d < 16 → d.testBit 3 = true → d &&& 8 ≠ 0 := by decide
  have hlen : ((pre ++ [c6, c5, c4, c3, c2, c1]).length : Int) ≥ 6 := by
    simp
  unfold isNewScheme
  simp only [hlen, if_true, (charAt_last_six pre c6 c5 c4 c3 c2 c1).2.2.2, hs]
  have h8 := key d hlt hbit
  rw [← hs] at h8
  simp [h8]

/-- Claim C13: on the text path with the hardware recognised, for every token that ends in
six characters `c6 c5 c4 c3 c2 c1` (any length of at least 6) where `c6` is a hexadecimal
digit of value `d` with bit 3 set, the call returns `0` and the record holds: type and
connector revision as the table `positionalTypes` gives them for `c2` ("Unknown" / 3 for any
character not in the table, so for '7' and 'a'..'f'), processor as `positionalProcessors`
gives it for `c4`, manufacturer as `positionalMakers` gives it for `c5`, ram as
`positionalRam` gives it for the low three bits of `d`, each with default "Unknown", and the
token as raw revision. -/
theorem positional_decode (linux_revision : Option Nat) (model : Option (List Char))
    (lines : List (List Char)) (hardware0 revision0 : List Char) (info : rpi_info)
    (pre : List Char) (c6 c5 c4 c3 c2 c1 : Char) (d : Nat)
    (hfound : (scanLines hardware0 revision0 lines).found = true)
    (htoken : (scanLines hardware0 revision0 lines).revision = pre ++ [c6, c5, c4, c3, c2, c1])
    (hd : hexDigitValue c6 = some d) (hbit : d.testBit 3 = true) :
    get_rpi_info_cpuinfo ⟨linux_revision, model, some lines⟩ hardware0 revision0 info
      = some (0, { type := ((positionalTypes.lookup c2).getD ("Unknown", 3)).1,
                   p1_revision := ((positionalTypes.lookup c2).getD ("Unknown", 3)).2,
                   processor := (positionalProcessors.lookup c4).getD "Unknown",
                   manufacturer := (positionalMakers.lookup c5).getD "Unknown",
                   ram := (positionalRam.lookup (d % 8)).getD "Unknown",
                   revision := pre ++ [c6, c5, c4, c3, c2, c1] }) := by
  have hne : (scanLines hardware0 revision0 lines).revision ≠ [] := by
    rw [htoken]
    simp
  obtain ⟨r2, r4, r5, r6⟩ := charAt_last_six pre c6 c5 c4 c3 c2 c1
  rw [get_rpi_info_cpuinfo_decode _ _ _ _ _ _ hfound hne, htoken,
    isNewScheme_of_digit pre c6 c5 c4 c3 c2 c1 d hd hbit]
  show (decodeNewScheme _ info).bind _ = _
  rw [decodeNewScheme_eq _ info c2 c4 c5 c6 r2 r4 r5 r6]
  have e1 := switchType_spec c2
  rw [Prod.ext_iff] at e1
  rw [← e1.1, ← e1.2, ← switchProcessor_spec c4, ← switchManufacturer_spec c5,
    ← switchRam_spec c6 d hd]
  rfl

/-- Witness for C13: the `/proc/cpuinfo` of a Pi 3 Model B, token "a02082". -/
theorem positional_decode_witness :
    hexDigitValue 'a' = some 10 ∧ Nat.testBit 10 3 = true ∧
    get_rpi_info_cpuinfo
        ⟨none, none, some ["Hardware\t: BCM2835\n".toList, "Revision\t: a02082\n".toList]⟩
        [] [] blankInfo
      = some (0, { type := "Pi 3 Model B", p1_revision := 3, processor := "BCM2837",
                   manufacturer := "Sony", ram := "1024M", revision := "a02082".toList }) :=
  ⟨by decide, by decide,
    positional_decode none none _ [] [] blankInfo [] 'a' '0' '2' '0' '8' '2' 10 (by decide)
      (by decide) (by decide) (by decide)⟩

/-! ## Scheme selection on the rendering of a word -/

/-- Masking with a single bit is non-zero exactly when that bit is set. -/
theorem and_two_pow_ne_zero (x i : Nat) : x &&& 2 ^ i ≠ 0 ↔ x.testBit i = true := by
  constructor
  · intro h
    obtain ⟨j, hj⟩ := Nat.ne_zero_implies_bit_true h
    rw [Nat.testBit_and, Bool.and_eq_true, Nat.testBit_two_pow, decide_eq_true_eq] at hj
    rw [hj.2]
    exact hj.1
  · intro h hz
    have : (x &&& 2 ^ i).testBit i = true := by
      rw [Nat.testBit_and, h, Nat.testBit_two_pow_self]
      rfl
    rw [hz, Nat.zero_testBit] at this
    cases this

/-- Bit 23 of a word is bit 3 of its sixth hexadecimal digit from the end. -/
theorem bit23_digit (v : Nat) :
    v &&& (1 <<< 23) ≠ 0 ↔ (v / 16 / 16 / 16 / 16 / 16 % 16) &&& 8 ≠ 0 := by
  have e1 : (1 <<< 23 : Nat) = 2 ^ 23 := by decide
  have e2 : (8 : Nat) = 2 ^ 3 := by decide
  have e3 : v / 16 / 16 / 16 / 16 / 16 % 16 = (v >>> 20) % 2 ^ 4 := by
    rw [Nat.shiftRight_eq_div_pow]
    omega
  rw [e1, e3, e2, and_two_pow_ne_zero, and_two_pow_ne_zero, Nat.testBit_mod_two_pow,
    Nat.testBit_shiftRight]
  simp

/-- A number below `16 ^ k` is rendered with at most `k` digits. -/
theorem hexDigitsAux_length_le (fuel : Nat) :
    ∀ n k : Nat, 0 < k → n < 16 ^ k → (hexDigitsAux fuel n []).length ≤ k := by
  induction fuel with
  | zero =>
    intro n k _ _
    simp [hexDigitsAux]
  | succ f ih =>
    intro n k hk hn
    rw [hexDigitsAux_succ, List.length_append, List.length_singleton]
    by_cases h : n / 16 = 0
    · rw [if_pos h, List.length_nil]
      omega
    · rw [if_neg h]
      obtain ⟨j, rfl⟩ : ∃ j, k = j + 1 := ⟨k - 1, by omega⟩
      have hq : n / 16 < 16 ^ j := by
        rw [Nat.div_lt_iff_lt_mul (by decide)]
        rw [Nat.pow_succ] at hn
        exact hn
      have hj : 0 < j := by
        rcases Nat.eq_zero_or_pos j with h0 | h0
        · subst h0
          simp at hq
          exact absurd hq h
        · exact h0
      have := ih (n / 16) j hj hq
      omega

/-- A word of at least `16 ^ 5` is rendered with its last six hexadecimal digits at the
end. -/
theorem sprintf_x_last_six (v : Nat) (h : 16 ^ 5 ≤ v) :
    ∃ pre : List Char, sprintf_x v = pre ++
      [Nat.digitChar (v / 16 / 16 / 16 / 16 / 16 % 16),
       Nat.digitChar (v / 16 / 16 / 16 / 16 % 16),
       Nat.digitChar (v / 16 / 16 / 16 % 16),
       Nat.digitChar (v / 16 / 16 % 16),
       Nat.digitChar (v / 16 % 16),
       Nat.digitChar (v % 16)] := by
  have n1 : ¬ v / 16 = 0 := by omega
  have n2 : ¬ v / 16 / 16 = 0 := by omega
  have n3 : ¬ v / 16 / 16 / 16 = 0 := by omega
  have n4 : ¬ v / 16 / 16 / 16 / 16 = 0 := by omega
  have n5 : ¬ v / 16 / 16 / 16 / 16 / 16 = 0 := by omega
  refine ⟨if v / 16 / 16 / 16 / 16 / 16 / 16 = 0 then []
    else hexDigitsAux 2 (v / 16 / 16 / 16 / 16 / 16 / 16) [], ?_⟩
  unfold sprintf_x
  rw [hexDigitsAux_succ 7, if_neg n1, hexDigitsAux_succ 6, if_neg n2, hexDigitsAux_succ 5,
    if_neg n3, hexDigitsAux_succ 4, if_neg n4, hexDigitsAux_succ 3, if_neg n5,
    hexDigitsAux_succ 2]
  simp

/-- A string of fewer than six characters is decoded by the old scheme. -/
theorem isNewScheme_short (revision : List Char) (h : revision.length < 6) :
    isNewScheme revision = some false := by
  unfold isNewScheme
  have hlen : ¬ ((revision.length : Int) ≥ 6) := by omega
  simp only [hlen, if_false]
  rfl

/-- The scheme test applied to the rendering of a 32-bit word is the test of bit 23. -/
theorem isNewScheme_sprintf_x (v : Nat) :
    isNewScheme (sprintf_x v) = some (decide (v &&& (1 <<< 23) ≠ 0)) := by
  rcases Nat.lt_or_ge v (16 ^ 5) with h | h
  · have hlen : (sprintf_x v).length ≤ 5 := hexDigitsAux_length_le 8 v 5 (by decide) h
    rw [isNewScheme_short _ (by omega)]
    have hz : ¬ (v &&& (1 <<< 23) ≠ 0) := by
      rw [bit23_digit]
      have : v / 16 / 16 / 16 / 16 / 16 = 0 := by omega
      rw [this]
      decide
    simp only [hz, decide_False]
  · obtain ⟨pre, hpre⟩ := sprintf_x_last_six v h
    rw [hpre]
    have hlen : ((pre ++ [Nat.digitChar (v / 16 / 16 / 16 / 16 / 16 % 16),
        Nat.digitChar (v / 16 / 16 / 16 / 16 % 16), Nat.digitChar (v / 16 / 16 / 16 % 16),
        Nat.digitChar (v / 16 / 16 % 16), Nat.digitChar (v / 16 % 16),
        Nat.digitChar (v % 16)]).length : Int) ≥ 6 := by
      simp
    unfold isNewScheme
    simp only [hlen, if_true, (charAt_last_six pre _ _ _ _ _ _).2.2.2]
    show some (decide (strtol16 (Nat.digitChar (v / 16 / 16 / 16 / 16 / 16 % 16)) &&& 8 ≠ 0))
      = some (decide (v &&& (1 <<< 23) ≠ 0))
    rw [digitChar_strtol16 _ (Nat.mod_lt (v / 16 / 16 / 16 / 16 / 16) (by decide : 0 < 16))]
    congr 1
    exact decide_eq_decide.mpr (bit23_digit v).symm

/-- With bit 23 set the packed path never returns `-1`: whatever it returns has code `0`. -/
theorem get_rpi_info_aarch64_new_code (word : Nat) (model : Option (List Char))
    (cpuinfo : Option (List (List Char))) (info : rpi_info)
    (hbit : word % 2 ^ 32 &&& (1 <<< 23) ≠ 0) (r : Int × rpi_info)
    (h : get_rpi_info_aarch64 ⟨some word, model, cpuinfo⟩ info = some r) : r.1 = 0 := by
  rw [get_rpi_info_aarch64_new word model cpuinfo info hbit] at h
  simp only [Option.bind_eq_bind, Option.bind_eq_some, Option.pure_def, Option.some.injEq]
    at h
  obtain ⟨_, _, _, _, _, _, _, _, _, _, h⟩ := h
  rw [← h]

/-- Claim C14: for every 32-bit value `v`, the scheme test of the text path applied to the
lower-case unpadded hexadecimal rendering of `v` selects the new (positional) scheme exactly
when bit 23 of `v` is set, which is exactly when the packed path accepts `v` as new encoding
(it returns `-1` precisely for the others); accordingly the text path run on a source whose
captured token is that rendering uses the positional decoder when bit 23 is set and the
enumerated decoder otherwise. -/
theorem scheme_selection_agrees (v : Nat) (hv : v < 2 ^ 32) :
    (isNewScheme (sprintf_x v) = some true ↔ v &&& (1 <<< 23) ≠ 0) ∧
    (∀ (model : Option (List Char)) (cpuinfo : Option (List (List Char))) (info : rpi_info),
      isNewScheme (sprintf_x v) = some false ↔
        get_rpi_info_aarch64 ⟨some v, model, cpuinfo⟩ info = some (-1, info)) ∧
    (∀ (linux_revision : Option Nat) (model : Option (List Char)) (lines : List (List Char))
        (hardware0 revision0 : List Char) (info : rpi_info),
      (scanLines hardware0 revision0 lines).found = true →
      (scanLines hardware0 revision0 lines).revision = sprintf_x v →
      get_rpi_info_cpuinfo ⟨linux_revision, model, some lines⟩ hardware0 revision0 info
        = if v &&& (1 <<< 23) ≠ 0 then
            (decodeNewScheme (sprintf_x v) info).map (fun r => (0, r))
          else some (0, decodeOldScheme (sprintf_x v) info)) := by
  have hsel := isNewScheme_sprintf_x v
  have hmod : v % 2 ^ 32 = v := Nat.mod_eq_of_lt hv
  by_cases hb : v &&& (1 <<< 23) ≠ 0
  · rw [decide_eq_true hb] at hsel
    refine ⟨⟨fun _ => hb, fun _ => hsel⟩, ?_, ?_⟩
    · intro model cpuinfo info
      constructor
      · intro h
        rw [hsel] at h
        cases h
      · intro h
        have hcode := get_rpi_info_aarch64_new_code v model cpuinfo info
          (by rw [hmod]; exact hb) _ h
        have hneg : ((-1 : Int), info).1 ≠ 0 := by
          show (-1 : Int) ≠ 0
          decide
        exact absurd hcode hneg
    · intro lr model lines hardware0 revision0 info hfound htoken
      have hne : (scanLines hardware0 revision0 lines).revision ≠ [] := by
        rw [htoken]
        exact sprintf_x_ne_nil v
      rw [get_rpi_info_cpuinfo_decode _ _ _ _ _ _ hfound hne, htoken, hsel, if_pos hb]
      cases decodeNewScheme (sprintf_x v) info <;> rfl
  · rw [decide_eq_false hb] at hsel
    refine ⟨⟨fun h => ?_, fun h => absurd h hb⟩, ?_, ?_⟩
    · rw [hsel] at h
      cases h
    · intro model cpuinfo info
      exact ⟨fun _ => get_rpi_info_aarch64_old v model cpuinfo info
        (by rw [hmod]; exact not_not.mp hb), fun _ => hsel⟩
    · intro lr model lines hardware0 revision0 info hfound htoken
      have hne : (scanLines hardware0 revision0 lines).revision ≠ [] := by
        rw [htoken]
        exact sprintf_x_ne_nil v
      rw [get_rpi_info_cpuinfo_decode _ _ _ _ _ _ hfound hne, htoken, hsel, if_neg hb]
      rfl

/-- Witness for C14: `0xa02082` has bit 23 set and its rendering is decoded positionally;
the over-volted legacy code `0x1000002` has bit 23 clear and its rendering is not. -/
theorem scheme_selection_agrees_witness :
    (0xa02082 < 2 ^ 32 ∧ 0xa02082 &&& (1 <<< 23) ≠ 0 ∧
      isNewScheme (sprintf_x 0xa02082) = some true) ∧
    (0x1000002 < 2 ^ 32 ∧ isNewScheme (sprintf_x 0x1000002) = some false ∧
      get_rpi_info_aarch64 ⟨some 0x1000002, none, none⟩ blankInfo = some (-1, blankInfo)) :=
  ⟨⟨by decide, by decide, (scheme_selection_agrees 0xa02082 (by decide)).1.2 (by decide)⟩,
    ⟨by decide, by decide,
      ((scheme_selection_agrees 0x1000002 (by decide)).2.1 none none blankInfo).1
        (by decide)⟩⟩

/-! ## The enumerated scheme looks at the last four characters only -/

/-- Two strings with the same last-four suffix decode, in the old scheme, to the same five
members, whatever the records before the call. -/
theorem decodeOldScheme_lastFour (a b : List Char) (i j : rpi_info)
    (h : lastFour a = lastFour b) :
    decodedFields (decodeOldScheme a i) = decodedFields (decodeOldScheme b j) := by
  have ht : (decodeOldScheme a i).type = (decodeOldScheme b j).type := by
    unfold decodeOldScheme
    simp only [apply_ite rpi_info.type, h]
  have hp : (decodeOldScheme a i).p1_revision = (decodeOldScheme b j).p1_revision := by
    unfold decodeOldScheme
    simp only [apply_ite rpi_info.p1_revision, h]
  have hc : (decodeOldScheme a i).processor = (decodeOldScheme b j).processor := by
    unfold decodeOldScheme
    simp only [apply_ite rpi_info.processor, h]
  have hm : (decodeOldScheme a i).manufacturer = (decodeOldScheme b j).manufacturer := by
    unfold decodeOldScheme
    simp only [apply_ite rpi_info.manufacturer, h]
  have hr : (decodeOldScheme a i).ram = (decodeOldScheme b j).ram := by
    unfold decodeOldScheme
    simp only [apply_ite rpi_info.ram, h]
  unfold decodedFields
  rw [ht, hp, hc, hm, hr]

/-- The last-four suffix of a string longer than four characters has four characters and is
its own last-four suffix. -/
theorem lastFour_idem (s : List Char) (h : 4 < s.length) :
    lastFour s = s.drop (s.length - 4) ∧ (s.drop (s.length - 4)).length = 4 ∧
    lastFour (s.drop (s.length - 4)) = s.drop (s.length - 4) := by
  have hl : (s.drop (s.length - 4)).length = 4 := by
    rw [List.length_drop]
    omega
  refine ⟨?_, hl, ?_⟩
  · unfold lastFour
    rw [if_pos h]
  · unfold lastFour
    rw [if_neg (by omega)]

/-- Claim C15: take a token `s` of more than four characters that the text path decodes by
the enumerated scheme, and a second source whose token is the last four characters of `s`.
Both calls return `0`, the two records agree on board type, connector revision, processor,
manufacturer and ram, the first keeps `s` as raw revision and the second keeps the
four-character token. -/
theorem enumerated_last_four (s : List Char)
    (linux_revision : Option Nat) (model : Option (List Char)) (lines : List (List Char))
    (hardware0 revision0 : List Char) (info : rpi_info)
    (linux_revision2 : Option Nat) (model2 : Option (List Char)) (lines2 : List (List Char))
    (hardware2 revision2 : List Char) (info2 : rpi_info)
    (hlen : 4 < s.length) (hold : isNewScheme s = some false)
    (hfound : (scanLines hardware0 revision0 lines).found = true)
    (htoken : (scanLines hardware0 revision0 lines).revision = s)
    (hfound2 : (scanLines hardware2 revision2 lines2).found = true)
    (htoken2 : (scanLines hardware2 revision2 lines2).revision = s.drop (s.length - 4)) :
    ∃ rec rec2 : rpi_info,
      get_rpi_info_cpuinfo ⟨linux_revision, model, some lines⟩ hardware0 revision0 info
        = some (0, rec) ∧
      get_rpi_info_cpuinfo ⟨linux_revision2, model2, some lines2⟩ hardware2 revision2 info2
        = some (0, rec2) ∧
      decodedFields rec = decodedFields rec2 ∧
      rec.revision = s ∧ rec2.revision = s.drop (s.length - 4) := by
  obtain ⟨e1, e2, e3⟩ := lastFour_idem s hlen
  have hne : (scanLines hardware0 revision0 lines).revision ≠ [] := by
    rw [htoken]
    intro hnil
    rw [hnil] at hlen
    exact absurd hlen (by decide)
  have hne2 : (scanLines hardware2 revision2 lines2).revision ≠ [] := by
    rw [htoken2]
    intro hnil
    rw [hnil] at e2
    exact absurd e2 (by decide)
  have hold2 : isNewScheme (s.drop (s.length - 4)) = some false :=
    isNewScheme_short _ (by omega)
  refine ⟨decodeOldScheme s info, decodeOldScheme (s.drop (s.length - 4)) info2, ?_, ?_,
    ?_, decodeOldScheme_revision _ _, decodeOldScheme_revision _ _⟩
  · rw [get_rpi_info_cpuinfo_decode _ _ _ _ _ _ hfound hne, htoken, hold]
    rfl
  · rw [get_rpi_info_cpuinfo_decode _ _ _ _ _ _ hfound2 hne2, htoken2, hold2]
    rfl
  · exact decodeOldScheme_lastFour _ _ _ _ (by rw [e1, e3])

/-- Witness for C15: the over-volted token "1000002" against the token "0002". -/
theorem enumerated_last_four_witness :
    ∃ rec rec2 : rpi_info,
      get_rpi_info_cpuinfo
          ⟨none, none, some ["Hardware\t: BCM2708\n".toList, "Revision\t: 1000002\n".toList]⟩
          [] [] blankInfo = some (0, rec) ∧
      get_rpi_info_cpuinfo
          ⟨none, none, some ["Hardware\t: BCM2708\n".toList, "Revision\t: 0002\n".toList]⟩
          [] [] blankInfo = some (0, rec2) ∧
      decodedFields rec = decodedFields rec2 ∧
      rec.revision = "1000002".toList ∧
      rec2.revision = "1000002".toList.drop ("1000002".toList.length - 4) :=
  enumerated_last_four "1000002".toList none none _ [] [] blankInfo none none _ [] [] blankInfo
    (by decide) (by decide) (by decide) (by decide) (by decide) (by decide)

/-! ## Positional reads stay inside the token -/

/-- Claim C16: on the text path, for every source and every non-empty captured token, the
call has a defined result (no character is read outside the token).  In detail: the scheme
test itself reads inside the token; a token of fewer than six characters is routed to the
enumerated scheme without any positional read; when the positional scheme is selected the
6th-, 5th-, 4th- and 2nd-from-last positions all hold a character of the token; and the
last-four suffix starts inside the token when the token has more than four characters and is
the whole token otherwise. -/
theorem positional_access_in_bounds (linux_revision : Option Nat)
    (model : Option (List Char)) (lines : List (List Char)) (hardware0 revision0 : List Char)
    (info : rpi_info) (token : List Char)
    (htoken : (scanLines hardware0 revision0 lines).revision = token) (hne : token ≠ []) :
    (∃ r : Int × rpi_info,
      get_rpi_info_cpuinfo ⟨linux_revision, model, some lines⟩ hardware0 revision0 info
        = some r) ∧
    (∃ b : Bool, isNewScheme token = some b) ∧
    (token.length < 6 → isNewScheme token = some false) ∧
    (isNewScheme token = some true →
      (∃ c, charAt token ((token.length : Int) - 6) = some c) ∧
      (∃ c, charAt token ((token.length : Int) - 5) = some c) ∧
      (∃ c, charAt token ((token.length : Int) - 4) = some c) ∧
      (∃ c, charAt token ((token.length : Int) - 2) = some c) ∧
      (∃ rec : rpi_info, decodeNewScheme token info = some rec)) ∧
    (4 < token.length →
      (∃ c, charAt token ((token.length : Int) - 4) = some c) ∧
      lastFour token = token.drop (token.length - 4)) ∧
    (token.length ≤ 4 → lastFour token = token) := by
  refine ⟨?_, isNewScheme_some token, isNewScheme_short token, ?_, ?_, ?_⟩
  · cases hfound : (scanLines hardware0 revision0 lines).found with
    | false =>
      exact ⟨_, get_rpi_info_cpuinfo_not_found _ _ _ _ _ _ hfound⟩
    | true =>
      have hne2 : (scanLines hardware0 revision0 lines).revision ≠ [] := by
        rw [htoken]
        exact hne
      rw [get_rpi_info_cpuinfo_decode _ _ _ _ _ _ hfound hne2, htoken]
      obtain ⟨b, hb⟩ := isNewScheme_some token
      rw [hb]
      cases b with
      | false => exact ⟨_, rfl⟩
      | true =>
        obtain ⟨rec, hrec, _⟩ := decodeNewScheme_some token info
          (isNewScheme_true_length token hb)
        refine ⟨(0, rec), ?_⟩
        show (decodeNewScheme token info).bind _ = _
        rw [hrec]
        rfl
  · intro hb
    have hlen := isNewScheme_true_length token hb
    obtain ⟨rec, hrec, _⟩ := decodeNewScheme_some token info hlen
    exact ⟨charAt_some token _ (by omega) (by omega), charAt_some token _ (by omega) (by omega),
      charAt_some token _ (by omega) (by omega), charAt_some token _ (by omega) (by omega),
      rec, hrec⟩
  · intro h4
    exact ⟨charAt_some token _ (by omega) (by omega), (lastFour_idem token h4).1⟩
  · intro h4
    unfold lastFour
    rw [if_neg (by omega)]

/-- Witness for C16: the tokens "a02082" (positional), and "2" (one character, enumerated). -/
theorem positional_access_in_bounds_witness :
    (∃ r : Int × rpi_info,
      get_rpi_info_cpuinfo
          ⟨none, none, some ["Hardware\t: BCM2835\n".toList, "Revision\t: a02082\n".toList]⟩
          [] [] blankInfo = some r) ∧
    (∃ r : Int × rpi_info,
      get_rpi_info_cpuinfo
          ⟨none, none, some ["Hardware\t: BCM2835\n".toList, "Revision\t: 2\n".toList]⟩
          [] [] blankInfo = some r) ∧
    isNewScheme "2".toList = some false :=
  ⟨(positional_access_in_bounds none none _ [] [] blankInfo "a02082".toList (by decide)
      (by decide)).1,
    (positional_access_in_bounds none none _ [] [] blankInfo "2".toList (by decide)
      (by decide)).1,
    (positional_access_in_bounds none none
      ["Hardware\t: BCM2835\n".toList, "Revision\t: 2\n".toList] [] [] blankInfo "2".toList
      (by decide) (by decide)).2.2.1 (by decide)⟩

/-! ## The upper byte of the word -/

/-- A mask below `2 ^ n` does not see the bits from `n` upwards. -/
theorem and_mod_two_pow (v mask n : Nat) (h : mask < 2 ^ n) :
    v % 2 ^ n &&& mask = v &&& mask := by
  apply Nat.eq_of_testBit_eq
  intro i
  rw [Nat.testBit_and, Nat.testBit_and, Nat.testBit_mod_two_pow]
  by_cases hi : i < n
  · simp [hi]
  · have hm : mask.testBit i = false := by
      apply Nat.testBit_lt_two_pow
      calc mask < 2 ^ n := h
        _ ≤ 2 ^ i := Nat.pow_le_pow_right (by decide) (by omega)
    simp [hm]

/-- The five codes and the new-scheme test depend on bits 0..23 only. -/
theorem fields_mod (v : Nat) :
    bRev (v % 2 ^ 24) = bRev v ∧ bType (v % 2 ^ 24) = bType v ∧
    bProc (v % 2 ^ 24) = bProc v ∧ bMfg (v % 2 ^ 24) = bMfg v ∧
    bMem (v % 2 ^ 24) = bMem v ∧
    (v % 2 ^ 24) &&& (1 <<< 23) = v &&& (1 <<< 23) := by
  unfold bRev bType bProc bMfg bMem
  rw [and_mod_two_pow v _ 24 (by decide), and_mod_two_pow v _ 24 (by decide),
    and_mod_two_pow v _ 24 (by decide), and_mod_two_pow v _ 24 (by decide),
    and_mod_two_pow v _ 24 (by decide), and_mod_two_pow v _ 24 (by decide)]
  exact ⟨rfl, rfl, rfl, rfl, rfl, rfl⟩

/-- Claim C17: two 32-bit words that agree on bits 0..23 give, on the packed path, the same
outcome (both rejected with `-1` and the record untouched, both decoded with `0`, or both
reading outside the type table) and the same board type, connector revision, processor,
manufacturer and ram; the raw revision is the only member that can differ. -/
theorem upper_byte_irrelevant (v w : Nat) (hv : v < 2 ^ 32) (hw : w < 2 ^ 32)
    (hagree : v % 2 ^ 24 = w % 2 ^ 24) (model : Option (List Char))
    (cpuinfo : Option (List (List Char))) (info : rpi_info) :
    (get_rpi_info_aarch64 ⟨some v, model, cpuinfo⟩ info).map
        (fun r => (r.1, decodedFields r.2))
      = (get_rpi_info_aarch64 ⟨some w, model, cpuinfo⟩ info).map
        (fun r => (r.1, decodedFields r.2)) := by
  have hvm : v % 2 ^ 32 = v := Nat.mod_eq_of_lt hv
  have hwm : w % 2 ^ 32 = w := Nat.mod_eq_of_lt hw
  obtain ⟨v1, v2, v3, v4, v5, v6⟩ := fields_mod v
  obtain ⟨w1, w2, w3, w4, w5, w6⟩ := fields_mod w
  rw [hagree] at v1 v2 v3 v4 v5 v6
  have e1 : bRev v = bRev w := by rw [← v1, w1]
  have e2 : bType v = bType w := by rw [← v2, w2]
  have e3 : bProc v = bProc w := by rw [← v3, w3]
  have e4 : bMfg v = bMfg w := by rw [← v4, w4]
  have e5 : bMem v = bMem w := by rw [← v5, w5]
  have e6 : v &&& (1 <<< 23) = w &&& (1 <<< 23) := by rw [← v6, w6]
  by_cases hb : w &&& (1 <<< 23) = 0
  · rw [get_rpi_info_aarch64_old v model cpuinfo info (by rw [hvm, e6]; exact hb),
      get_rpi_info_aarch64_old w model cpuinfo info (by rw [hwm]; exact hb)]
  · rw [get_rpi_info_aarch64_new v model cpuinfo info (by rw [hvm, e6]; exact hb),
      get_rpi_info_aarch64_new w model cpuinfo info (by rw [hwm]; exact hb),
      hvm, hwm, e1, e2, e3, e4, e5]
    cases piRevision[bRev w]? <;> cases piMemorySize[bMem w]? <;>
      cases piMakerNames[bMfg w]? <;> cases piProcesorNames[bProc w]? <;>
      cases piModelNames[bType w]? <;> rfl

/-- Witness for C17: `0xa020d3` and the same word with warranty bits set, `0x3a020d3`. -/
theorem upper_byte_irrelevant_witness :
    (0xa020d3 < 2 ^ 32 ∧ 0x3a020d3 < 2 ^ 32 ∧ 0xa020d3 % 2 ^ 24 = 0x3a020d3 % 2 ^ 24) ∧
    (get_rpi_info_aarch64 ⟨some 0xa020d3, none, none⟩ blankInfo).map
        (fun r => (r.1, decodedFields r.2))
      = (get_rpi_info_aarch64 ⟨some 0x3a020d3, none, none⟩ blankInfo).map
        (fun r => (r.1, decodedFields r.2)) ∧
    (get_rpi_info_aarch64 ⟨some 0x3a020d3, none, none⟩ blankInfo).map
        (fun r => r.2.revision) = some "3a020d3".toList :=
  ⟨by decide,
    upper_byte_irrelevant 0xa020d3 0x3a020d3 (by decide) (by decide) (by decide) none none
      blankInfo,
    by decide⟩

/-! ## The raw revision on the packed path -/

/-- With bit 23 set, whatever record the packed path returns holds the rendering of the word
as raw revision. -/
theorem get_rpi_info_aarch64_new_revision (word : Nat) (model : Option (List Char))
    (cpuinfo : Option (List (List Char))) (info : rpi_info)
    (hbit : word % 2 ^ 32 &&& (1 <<< 23) ≠ 0) (r : Int × rpi_info)
    (h : get_rpi_info_aarch64 ⟨some word, model, cpuinfo⟩ info = some r) :
    r.2.revision = sprintf_x (word % 2 ^ 32) := by
  rw [get_rpi_info_aarch64_new word model cpuinfo info hbit] at h
  simp only [Option.bind_eq_bind, Option.bind_eq_some, Option.pure_def, Option.some.injEq]
    at h
  obtain ⟨_, _, _, _, _, _, _, _, _, _, h⟩ := h
  rw [← h]

/-- Claim C18: for every 32-bit word `v` with bit 23 set, the string that the packed path
stores as raw revision is `sprintf_x v` - the call returns a record whenever the board-type
code is inside the type table, and any record it returns holds that string.  The string is
made of lower-case hexadecimal digits only, does not start with '0' (no leading zeros, no
prefix), and read back as a base-16 number it gives `v`. -/
theorem raw_revision_roundtrip (v : Nat) (hv : v < 2 ^ 32) (hbit : v &&& (1 <<< 23) ≠ 0)
    (model : Option (List Char)) (cpuinfo : Option (List (List Char))) (info : rpi_info) :
    (∀ rec : rpi_info,
      get_rpi_info_aarch64 ⟨some v, model, cpuinfo⟩ info = some (0, rec) →
      rec.revision = sprintf_x v) ∧
    (bType v < 16 →
      ∃ rec : rpi_info,
        get_rpi_info_aarch64 ⟨some v, model, cpuinfo⟩ info = some (0, rec) ∧
        rec.revision = sprintf_x v) ∧
    (∀ c ∈ sprintf_x v, c ∈ "0123456789abcdef".toList) ∧
    (sprintf_x v).head? ≠ some '0' ∧
    parseHex (sprintf_x v) = some v := by
  have hmod : v % 2 ^ 32 = v := Nat.mod_eq_of_lt hv
  have hbit2 : v % 2 ^ 32 &&& (1 <<< 23) ≠ 0 := by
    rw [hmod]
    exact hbit
  have hv0 : v ≠ 0 := by
    intro h0
    rw [h0] at hbit
    exact hbit (Nat.zero_and _)
  refine ⟨?_, ?_, hexDigitsAux_lower 8 v, hexDigitsAux_head 8 v (by omega) hv0,
    parseHex_sprintf_x v hv⟩
  · intro rec h
    have := get_rpi_info_aarch64_new_revision v model cpuinfo info hbit2 _ h
    rw [hmod] at this
    exact this
  · intro ht
    rw [get_rpi_info_aarch64_new v model cpuinfo info hbit2, hmod]
    obtain ⟨x1, e1⟩ := lookup_some piRevision (bRev v) (bRev_lt v)
    obtain ⟨x2, e2⟩ := lookup_some piMemorySize (bMem v) (bMem_lt v)
    obtain ⟨x3, e3⟩ := lookup_some piMakerNames (bMfg v) (bMfg_lt v)
    obtain ⟨x4, e4⟩ := lookup_some piProcesorNames (bProc v) (bProc_lt v)
    obtain ⟨x5, e5⟩ := lookup_some piModelNames (bType v) ht
    rw [e1, e2, e3, e4, e5]
    exact ⟨_, rfl, rfl⟩

/-- Witness for C18: the word `0xa020d3`. -/
theorem raw_revision_roundtrip_witness :
    (0xa020d3 < 2 ^ 32 ∧ 0xa020d3 &&& (1 <<< 23) ≠ 0 ∧ bType 0xa020d3 < 16) ∧
    sprintf_x 0xa020d3 = "a020d3".toList ∧
    (∃ rec : rpi_info,
      get_rpi_info_aarch64 ⟨some 0xa020d3, none, none⟩ blankInfo = some (0, rec) ∧
      rec.revision = sprintf_x 0xa020d3) ∧
    parseHex (sprintf_x 0xa020d3) = some 0xa020d3 :=
  ⟨by decide, by decide,
    (raw_revision_roundtrip 0xa020d3 (by decide) (by decide) none none blankInfo).2.1
      (by decide),
    (raw_revision_roundtrip 0xa020d3 (by decide) (by decide) none none blankInfo).2.2.2.2⟩

/-! ## The scan loop: last revision line, sticky hardware -/

/-- Lines that carry no revision token leave the `revision` buffer as it is. -/
theorem foldl_scanLine_revision_keep (post : List (List Char)) :
    ∀ st : ScanState, (∀ l ∈ post, sscanf_s "Revision".toList l = none) →
      (post.foldl scanLine st).revision = st.revision := by
  induction post with
  | nil =>
    intro st _
    rfl
  | cons l ls ih =>
    intro st h
    rw [List.foldl_cons, ih (scanLine st l) (fun x hx => h x (List.mem_cons_of_mem _ hx)),
      scanLine_revision, h l (List.mem_cons_self _ _)]
    rfl

/-- Once `found` is set it stays set. -/
theorem foldl_scanLine_found_sticky (post : List (List Char)) (st : ScanState)
    (h : st.found = true) : (post.foldl scanLine st).found = true := by
  rw [foldl_scanLine_found post st (fun hf => by rw [h] at hf; cases hf)]
  exact Or.inl h

/-- A line that yields a known identifier sets `found`, whatever the state before it. -/
theorem scanLine_found_of_yields (st : ScanState) (l : List Char)
    (h : yieldsHardware l = true) : (scanLine st l).found = true := by
  unfold yieldsHardware at h
  rw [scanLine_found, scanLine_hardware]
  cases hs : sscanf_s "Hardware".toList l with
  | none =>
    rw [hs] at h
    cases h
  | some hw =>
    rw [hs] at h
    simp only at h
    rw [Option.getD_some, if_pos h]

/-- Claim C19: for every text source, split at any line `l` as `before ++ l :: after`, and
whatever the two arrays hold on entry: (a) if `l` matches the `Revision` pattern with value
`token` and no later line matches it, the captured token is `token`, whatever the earlier
lines are; (b) if `l` yields one of the five known identifiers, `found` is set at the end of
the scan, whatever lines come before or after; (c) when both hold for a source, the call
returns `0` and the decoded record keeps `token` as raw revision. -/
theorem last_revision_wins (before after : List (List Char)) (l token : List Char)
    (hardware0 revision0 : List Char) :
    (sscanf_s "Revision".toList l = some token →
      (∀ x ∈ after, sscanf_s "Revision".toList x = none) →
      (scanLines hardware0 revision0 (before ++ l :: after)).revision = token) ∧
    (yieldsHardware l = true →
      (scanLines hardware0 revision0 (before ++ l :: after)).found = true) ∧
    (∀ (linux_revision : Option Nat) (model : Option (List Char)) (info : rpi_info),
      sscanf_s "Revision".toList l = some token →
      (∀ x ∈ after, sscanf_s "Revision".toList x = none) →
      (∃ x ∈ before ++ l :: after, yieldsHardware x = true) →
      ∃ rec : rpi_info,
        get_rpi_info_cpuinfo ⟨linux_revision, model, some (before ++ l :: after)⟩
          hardware0 revision0 info = some (0, rec) ∧
        rec.revision = token) := by
  have ha : sscanf_s "Revision".toList l = some token →
      (∀ x ∈ after, sscanf_s "Revision".toList x = none) →
      (scanLines hardware0 revision0 (before ++ l :: after)).revision = token := by
    intro hl hafter
    unfold scanLines
    rw [List.foldl_append, List.foldl_cons, foldl_scanLine_revision_keep after _ hafter,
      scanLine_revision, hl]
    rfl
  have hb : ∀ pre post : List (List Char), ∀ x : List Char, yieldsHardware x = true →
      (scanLines hardware0 revision0 (pre ++ x :: post)).found = true := by
    intro pre post x hx
    unfold scanLines
    rw [List.foldl_append, List.foldl_cons]
    exact foldl_scanLine_found_sticky post _ (scanLine_found_of_yields _ x hx)
  refine ⟨ha, hb before after l, ?_⟩
  intro lr model info hl hafter hhw
  have htoken := ha hl hafter
  have hne : token ≠ [] := sscanf_s_ne_nil _ _ _ hl
  have hfound : (scanLines hardware0 revision0 (before ++ l :: after)).found = true := by
    obtain ⟨x, hx, hy⟩ := hhw
    obtain ⟨pre, post, hsplit⟩ := List.append_of_mem hx
    rw [hsplit]
    exact hb pre post x hy
  have hne2 : (scanLines hardware0 revision0 (before ++ l :: after)).revision ≠ [] := by
    rw [htoken]
    exact hne
  rw [get_rpi_info_cpuinfo_decode _ _ _ _ _ _ hfound hne2, htoken]
  obtain ⟨b, hbs⟩ := isNewScheme_some token
  rw [hbs]
  cases b with
  | false => exact ⟨_, rfl, decodeOldScheme_revision _ _⟩
  | true =>
    obtain ⟨rec, hrec, hrev⟩ := decodeNewScheme_some token info
      (isNewScheme_true_length token hbs)
    refine ⟨rec, ?_, hrev⟩
    show (decodeNewScheme token info).bind _ = _
    rw [hrec]
    rfl

/-- Witness for C19: a source with two revision lines and trailing lines; the hardware line
comes first and an unrelated hardware line follows it. -/
theorem last_revision_wins_witness :
    ∃ rec : rpi_info,
      get_rpi_info_cpuinfo
          ⟨none, none, some (["Hardware\t: BCM2835\n".toList, "Revision\t: 0002\n".toList,
            "Hardware\t: other\n".toList] ++ "Revision\t: a02082\n".toList ::
            ["Serial\t\t: 00000000deadbeef\n".toList, "Model\t\t: Raspberry Pi\n".toList])⟩
          [] [] blankInfo = some (0, rec) ∧
      rec.revision = "a02082".toList :=
  (last_revision_wins
    ["Hardware\t: BCM2835\n".toList, "Revision\t: 0002\n".toList, "Hardware\t: other\n".toList]
    ["Serial\t\t: 00000000deadbeef\n".toList, "Model\t\t: Raspberry Pi\n".toList]
    "Revision\t: a02082\n".toList "a02082".toList [] []).2.2 none none blankInfo
    (by decide) (by decide) (by decide)

/-! ## The `hardware` array is compared before it is written -/

/-- Claim C7 fails on the code: the source below has no line that yields one of the five
hardware identifiers, yet with the automatic array `hardware` holding "BCM2835" on entry
(it is not initialised, and the first `strcmp` reads it whether or not the first `sscanf`
stored anything) the call returns `0` and writes a full record.  With the array empty on
entry the same source is rejected with `-1` and the record untouched, so the outcome depends
on memory the function never wrote. -/
theorem stale_hardware_array_accepted :
    (∀ l ∈ ["processor\t: 0\n".toList, "Revision\t: 0002\n".toList],
      yieldsHardware l = false) ∧
    get_rpi_info_cpuinfo
        ⟨none, none, some ["processor\t: 0\n".toList, "Revision\t: 0002\n".toList]⟩
        "BCM2835".toList [] blankInfo
      = some (0, { p1_revision := 1, ram := "256M", manufacturer := "Unknown",
                   processor := "BCM2835", type := "Model B", revision := "0002".toList }) ∧
    get_rpi_info_cpuinfo
        ⟨none, none, some ["processor\t: 0\n".toList, "Revision\t: 0002\n".toList]⟩
        [] [] blankInfo
      = some (-1, blankInfo) := by
  decide

/-- Claim C8 fails on the code: with the `revision` array empty on entry, as the claim takes
it, and the `hardware` array holding "BCM2709" on entry, the source below returns `0` with a
record although no recognized hardware identifier line is in it; the loop sets `found` from
the stale array.  The captured token "a02082" is not empty, so no part of the claim's failure
condition other than the hardware line is involved. -/
theorem failure_condition_broken_by_stale_array :
    (∀ l ∈ ["model name\t: ARMv7 Processor rev 4 (v7l)\n".toList,
        "Revision\t: a02082\n".toList], yieldsHardware l = false) ∧
    (scanLines "BCM2709".toList []
        ["model name\t: ARMv7 Processor rev 4 (v7l)\n".toList,
          "Revision\t: a02082\n".toList]).revision = "a02082".toList ∧
    (scanLines "BCM2709".toList []
        ["model name\t: ARMv7 Processor rev 4 (v7l)\n".toList,
          "Revision\t: a02082\n".toList]).found = true ∧
    get_rpi_info_cpuinfo
        ⟨none, none, some ["model name\t: ARMv7 Processor rev 4 (v7l)\n".toList,
          "Revision\t: a02082\n".toList]⟩
        "BCM2709".toList [] blankInfo
      = some (0, { p1_revision := 3, ram := "1024M", manufacturer := "Sony",
                   processor := "BCM2837", type := "Pi 3 Model B",
                   revision := "a02082".toList }) := by
  decide

/-! ## When the packed path fails -/

/-- Claim C9, amended: on the packed path the call returns `-1`, with the record untouched,
when the binary attribute cannot be opened and the model text cannot be opened or does not
contain "Raspberry Pi 3 Model B+", and when the word read has bit 23 clear; whenever it
returns `-1` one of these is the case.  A 32-bit word with bit 23 set and a board-type code
(bits 4..11) below 16 is decoded: the call returns `0` with a record whose raw revision is
the hexadecimal rendering of the word. -/
theorem packed_rejects_exactly_old_words (v : Nat) (hv : v < 2 ^ 32)
    (model : Option (List Char)) (cpuinfo : Option (List (List Char))) (info : rpi_info) :
    get_rpi_info_aarch64 ⟨none, none, cpuinfo⟩ info = some (-1, info) ∧
    (∀ text : List Char, ¬ "Raspberry Pi 3 Model B+".toList <:+: text →
      get_rpi_info_aarch64 ⟨none, some text, cpuinfo⟩ info = some (-1, info)) ∧
    (v &&& (1 <<< 23) = 0 →
      get_rpi_info_aarch64 ⟨some v, model, cpuinfo⟩ info = some (-1, info)) ∧
    (v &&& (1 <<< 23) ≠ 0 → bType v < 16 →
      ∃ rec : rpi_info,
        get_rpi_info_aarch64 ⟨some v, model, cpuinfo⟩ info = some (0, rec) ∧
        rec.revision = sprintf_x v) ∧
    (∀ (fs : Files) (r : Int × rpi_info),
      get_rpi_info_aarch64 fs info = some r → r.1 = -1 →
      (fs.linux_revision = none ∧
        (fs.model = none ∨
          ∃ text : List Char, fs.model = some text ∧
            ¬ "Raspberry Pi 3 Model B+".toList <:+: text)) ∨
      (∃ word : Nat, fs.linux_revision = some word ∧
        word % 2 ^ 32 &&& (1 <<< 23) = 0)) := by
  have hmod : v % 2 ^ 32 = v := Nat.mod_eq_of_lt hv
  have hunmatched : ∀ (text : List Char) (cpu : Option (List (List Char))),
      ¬ "Raspberry Pi 3 Model B+".toList <:+: text →
      get_rpi_info_aarch64 ⟨none, some text, cpu⟩ info = some (-1, info) := by
    intro text cpu h
    have hs : strstr text "Raspberry Pi 3 Model B+".toList = false := by
      rw [← Bool.not_eq_true, strstr_iff_contains]
      exact h
    simp only [get_rpi_info_aarch64, hs, Bool.false_eq_true, if_false]
  refine ⟨rfl, fun text h => hunmatched text cpuinfo h, ?_, ?_, ?_⟩
  · intro hbit
    exact get_rpi_info_aarch64_old v model cpuinfo info (by rw [hmod]; exact hbit)
  · intro hbit ht
    rw [get_rpi_info_aarch64_new v model cpuinfo info (by rw [hmod]; exact hbit), hmod]
    obtain ⟨x1, e1⟩ := lookup_some piRevision (bRev v) (bRev_lt v)
    obtain ⟨x2, e2⟩ := lookup_some piMemorySize (bMem v) (bMem_lt v)
    obtain ⟨x3, e3⟩ := lookup_some piMakerNames (bMfg v) (bMfg_lt v)
    obtain ⟨x4, e4⟩ := lookup_some piProcesorNames (bProc v) (bProc_lt v)
    obtain ⟨x5, e5⟩ := lookup_some piModelNames (bType v) ht
    rw [e1, e2, e3, e4, e5]
    exact ⟨_, rfl, rfl⟩
  · intro fs r hr hcode
    have hneq : (-1 : Int) ≠ 0 := by decide
    obtain ⟨lr, mdl, cpu⟩ := fs
    cases lr with
    | some word =>
      by_cases hb : word % 2 ^ 32 &&& (1 <<< 23) = 0
      · exact Or.inr ⟨word, rfl, hb⟩
      · have h0 := get_rpi_info_aarch64_new_code word mdl cpu info hb r hr
        rw [hcode] at h0
        exact absurd h0 hneq
    | none =>
      cases mdl with
      | none => exact Or.inl ⟨rfl, Or.inl rfl⟩
      | some text =>
        by_cases hin : "Raspberry Pi 3 Model B+".toList <:+: text
        · have hs : strstr text "Raspberry Pi 3 Model B+".toList = true :=
            (strstr_iff_contains _ text).2 hin
          have e : get_rpi_info_aarch64 ⟨none, some text, cpu⟩ info
              = get_rpi_info_aarch64 ⟨some 0xa020d3, some text, cpu⟩ info := by
            simp only [get_rpi_info_aarch64, hs, if_true]
            rfl
          rw [e] at hr
          have h0 := get_rpi_info_aarch64_new_code 0xa020d3 (some text) cpu info
            (by decide) r hr
          rw [hcode] at h0
          exact absurd h0 hneq
        · exact Or.inl ⟨rfl, Or.inr ⟨text, rfl, hin⟩⟩

/-- Witness for the amended C9: `0x00000002` is rejected, `0xa020d3` is decoded, and the call
fails when neither file can be opened or the model text is that of another board. -/
theorem packed_rejects_exactly_old_words_witness :
    (0x00000002 < 2 ^ 32 ∧ 0x00000002 &&& (1 <<< 23) = 0 ∧
      get_rpi_info_aarch64 ⟨some 0x00000002, none, none⟩ blankInfo = some (-1, blankInfo)) ∧
    (0xa020d3 < 2 ^ 32 ∧ 0xa020d3 &&& (1 <<< 23) ≠ 0 ∧ bType 0xa020d3 < 16 ∧
      ∃ rec : rpi_info,
        get_rpi_info_aarch64 ⟨some 0xa020d3, none, none⟩ blankInfo = some (0, rec) ∧
        rec.revision = sprintf_x 0xa020d3) ∧
    get_rpi_info_aarch64 ⟨none, none, none⟩ blankInfo = some (-1, blankInfo) ∧
    (¬ "Raspberry Pi 3 Model B+".toList <:+: "Raspberry Pi 4 Model B Rev 1.1".toList ∧
      get_rpi_info_aarch64 ⟨none, some "Raspberry Pi 4 Model B Rev 1.1".toList, none⟩ blankInfo
        = some (-1, blankInfo)) :=
  ⟨⟨by decide, by decide,
      (packed_rejects_exactly_old_words 0x00000002 (by decide) none none blankInfo).2.2.1
        (by decide)⟩,
    ⟨by decide, by decide, by decide,
      (packed_rejects_exactly_old_words 0xa020d3 (by decide) none none blankInfo).2.2.2.1
        (by decide) (by decide)⟩,
    (packed_rejects_exactly_old_words 0xa020d3 (by decide) none none blankInfo).1,
    ⟨by decide,
      (packed_rejects_exactly_old_words 0xa020d3 (by decide) none none blankInfo).2.1
        "Raspberry Pi 4 Model B Rev 1.1".toList (by decide)⟩⟩

end CpuInfo
